import Mathlib

/-!
# govfd: the ESC/POS character-set encoder

A shallow embedding of `commands/escpos/encoding.go` (the `CharsetEncoder`, its
classifier `detectBestCharset` and the two encode entry points) together with
the parts of the Go runtime and of `golang.org/x/text/encoding/charmap` that the
encoder calls.

* A Go `string` / `[]byte` is a `List Nat` of bytes (values `0..255`).
* A Go `rune` is a `Nat` code point.
* A Go `int` page number is an `Int`.
* A Go `error` is an `Option String`; `none` is `nil`.
* A method with a pointer receiver returns the receiver's new value.
-/

namespace GoVFD

/-! ## `unicode/utf8` -/

/-- The rune U+FFFD that the decoder yields for a malformed byte. -/
def RuneError : Nat := 0xFFFD

/-- Bytes below `RuneSelf` are single-byte runes. -/
def RuneSelf : Nat := 0x80

/-- The number of bytes announced by a lead byte (`first[s0] & 7`); `0` stands
for the entries `xx` (not a lead byte) and is never used for ASCII. -/
def leadSize (s0 : Nat) : Nat :=
  if 0xC2 ≤ s0 ∧ s0 ≤ 0xDF then 2
  else if 0xE0 ≤ s0 ∧ s0 ≤ 0xEF then 3
  else if 0xF0 ≤ s0 ∧ s0 ≤ 0xF4 then 4
  else 0

/-- Lower bound of `acceptRanges[first[s0] >> 4]` for the second byte. -/
def acceptLo (s0 : Nat) : Nat :=
  if s0 = 0xE0 then 0xA0 else if s0 = 0xF0 then 0x90 else 0x80

/-- Upper bound of `acceptRanges[first[s0] >> 4]` for the second byte. -/
def acceptHi (s0 : Nat) : Nat :=
  if s0 = 0xED then 0x9F else if s0 = 0xF4 then 0x8F else 0xBF

/-- Go's `utf8.DecodeRuneInString` (and `utf8.DecodeRune`): the first rune of
`s` and its width in bytes; `(RuneError, 0)` on the empty string and
`(RuneError, 1)` on a malformed encoding. -/
def DecodeRuneInString : List Nat → Nat × Nat
  | [] => (RuneError, 0)
  | s0 :: rest =>
    if s0 < RuneSelf then (s0, 1)
    else if leadSize s0 = 0 then (RuneError, 1)
    else if rest.length + 1 < leadSize s0 then (RuneError, 1)
    else
      match rest with
      | [] => (RuneError, 1)
      | s1 :: rest1 =>
        if s1 < acceptLo s0 ∨ acceptHi s0 < s1 then (RuneError, 1)
        else if leadSize s0 ≤ 2 then (((s0 &&& 0x1F) <<< 6) ||| (s1 &&& 0x3F), 2)
        else
          match rest1 with
          | [] => (RuneError, 1)
          | s2 :: rest2 =>
            if s2 < 0x80 ∨ 0xBF < s2 then (RuneError, 1)
            else if leadSize s0 ≤ 3 then
              (((s0 &&& 0x0F) <<< 12) ||| ((s1 &&& 0x3F) <<< 6) ||| (s2 &&& 0x3F), 3)
            else
              match rest2 with
              | [] => (RuneError, 1)
              | s3 :: _ =>
                if s3 < 0x80 ∨ 0xBF < s3 then (RuneError, 1)
                else
                  (((s0 &&& 0x07) <<< 18) ||| ((s1 &&& 0x3F) <<< 12) |||
                    ((s2 &&& 0x3F) <<< 6) ||| (s3 &&& 0x3F), 4)

/-- The loop of `utf8.ValidString`, at a position that still has `skip` bytes of
the current rune to step over. -/
def validFrom : Nat → List Nat → Bool
  | _, [] => true
  | k + 1, _ :: rest => validFrom k rest
  | 0, s0 :: rest =>
    if s0 < RuneSelf then validFrom 0 rest
    else if (DecodeRuneInString (s0 :: rest)).2 = 1 then false
    else validFrom ((DecodeRuneInString (s0 :: rest)).2 - 1) rest

/-- Go's `utf8.ValidString`. -/
def ValidString (s : List Nat) : Bool := validFrom 0 s

/-- The runes yielded by `for _, r := range s`, at a position that still has
`skip` bytes of the current rune to step over. -/
def rangeFrom : Nat → List Nat → List Nat
  | _, [] => []
  | k + 1, _ :: rest => rangeFrom k rest
  | 0, s0 :: rest =>
    (DecodeRuneInString (s0 :: rest)).1 ::
      rangeFrom ((DecodeRuneInString (s0 :: rest)).2 - 1) rest

/-- The runes yielded by `for _, r := range s`: the characters of the text. -/
def rangeString (s : List Nat) : List Nat := rangeFrom 0 s

/-- Go's `utf8.EncodeRune` / `utf8.AppendRune`: the UTF-8 bytes of a rune, with
the shifts and masks written as division and remainder (`t2 | byte(r>>6)` is
`0xC0 + r / 64` because `r / 64 < 32` in that branch, and so on). A surrogate
or a rune above U+10FFFF is written as U+FFFD. -/
def EncodeRune (r : Nat) : List Nat :=
  if r ≤ 0x7F then [r]
  else if r ≤ 0x7FF then [0xC0 + r / 64, 0x80 + r % 64]
  else if r > 0x10FFFF ∨ (0xD800 ≤ r ∧ r ≤ 0xDFFF) then [0xEF, 0xBF, 0xBD]
  else if r ≤ 0xFFFF then [0xE0 + r / 4096, 0x80 + r / 64 % 64, 0x80 + r % 64]
  else [0xF0 + r / 262144, 0x80 + r / 4096 % 64, 0x80 + r / 64 % 64, 0x80 + r % 64]

/-! ## `golang.org/x/text/encoding/charmap` -/

/-- The four single-byte code pages the encoder binds. -/
inductive Charmap where
  | CodePage437
  | CodePage850
  | CodePage860
  | CodePage858
  deriving DecidableEq, Repr

/-- Runes of bytes `0x80..0xFF` of IBM Code Page 437 (`charmap.CodePage437`). -/
def codePage437High : List Nat :=
  [
   0x00C7, 0x00FC, 0x00E9, 0x00E2, 0x00E4, 0x00E0, 0x00E5, 0x00E7,
   0x00EA, 0x00EB, 0x00E8, 0x00EF, 0x00EE, 0x00EC, 0x00C4, 0x00C5,
   0x00C9, 0x00E6, 0x00C6, 0x00F4, 0x00F6, 0x00F2, 0x00FB, 0x00F9,
   0x00FF, 0x00D6, 0x00DC, 0x00A2, 0x00A3, 0x00A5, 0x20A7, 0x0192,
   0x00E1, 0x00ED, 0x00F3, 0x00FA, 0x00F1, 0x00D1, 0x00AA, 0x00BA,
   0x00BF, 0x2310, 0x00AC, 0x00BD, 0x00BC, 0x00A1, 0x00AB, 0x00BB,
   0x2591, 0x2592, 0x2593, 0x2502, 0x2524, 0x2561, 0x2562, 0x2556,
   0x2555, 0x2563, 0x2551, 0x2557, 0x255D, 0x255C, 0x255B, 0x2510,
   0x2514, 0x2534, 0x252C, 0x251C, 0x2500, 0x253C, 0x255E, 0x255F,
   0x255A, 0x2554, 0x2569, 0x2566, 0x2560, 0x2550, 0x256C, 0x2567,
   0x2568, 0x2564, 0x2565, 0x2559, 0x2558, 0x2552, 0x2553, 0x256B,
   0x256A, 0x2518, 0x250C, 0x2588, 0x2584, 0x258C, 0x2590, 0x2580,
   0x03B1, 0x00DF, 0x0393, 0x03C0, 0x03A3, 0x03C3, 0x00B5, 0x03C4,
   0x03A6, 0x0398, 0x03A9, 0x03B4, 0x221E, 0x03C6, 0x03B5, 0x2229,
   0x2261, 0x00B1, 0x2265, 0x2264, 0x2320, 0x2321, 0x00F7, 0x2248,
   0x00B0, 0x2219, 0x00B7, 0x221A, 0x207F, 0x00B2, 0x25A0, 0x00A0
  ]

/-- Runes of bytes `0x80..0xFF` of IBM Code Page 850 (`charmap.CodePage850`). -/
def codePage850High : List Nat :=
  [
   0x00C7, 0x00FC, 0x00E9, 0x00E2, 0x00E4, 0x00E0, 0x00E5, 0x00E7,
   0x00EA, 0x00EB, 0x00E8, 0x00EF, 0x00EE, 0x00EC, 0x00C4, 0x00C5,
   0x00C9, 0x00E6, 0x00C6, 0x00F4, 0x00F6, 0x00F2, 0x00FB, 0x00F9,
   0x00FF, 0x00D6, 0x00DC, 0x00F8, 0x00A3, 0x00D8, 0x00D7, 0x0192,
   0x00E1, 0x00ED, 0x00F3, 0x00FA, 0x00F1, 0x00D1, 0x00AA, 0x00BA,
   0x00BF, 0x00AE, 0x00AC, 0x00BD, 0x00BC, 0x00A1, 0x00AB, 0x00BB,
   0x2591, 0x2592, 0x2593, 0x2502, 0x2524, 0x00C1, 0x00C2, 0x00C0,
   0x00A9, 0x2563, 0x2551, 0x2557, 0x255D, 0x00A2, 0x00A5, 0x2510,
   0x2514, 0x2534, 0x252C, 0x251C, 0x2500, 0x253C, 0x00E3, 0x00C3,
   0x255A, 0x2554, 0x2569, 0x2566, 0x2560, 0x2550, 0x256C, 0x00A4,
   0x00F0, 0x00D0, 0x00CA, 0x00CB, 0x00C8, 0x0131, 0x00CD, 0x00CE,
   0x00CF, 0x2518, 0x250C, 0x2588, 0x2584, 0x00A6, 0x00CC, 0x2580,
   0x00D3, 0x00DF, 0x00D4, 0x00D2, 0x00F5, 0x00D5, 0x00B5, 0x00FE,
   0x00DE, 0x00DA, 0x00DB, 0x00D9, 0x00FD, 0x00DD, 0x00AF, 0x00B4,
   0x00AD, 0x00B1, 0x2017, 0x00BE, 0x00B6, 0x00A7, 0x00F7, 0x00B8,
   0x00B0, 0x00A8, 0x00B7, 0x00B9, 0x00B3, 0x00B2, 0x25A0, 0x00A0
  ]

/-- Runes of bytes `0x80..0xFF` of IBM Code Page 860 (`charmap.CodePage860`). -/
def codePage860High : List Nat :=
  [
   0x00C7, 0x00FC, 0x00E9, 0x00E2, 0x00E3, 0x00E0, 0x00C1, 0x00E7,
   0x00EA, 0x00CA, 0x00E8, 0x00CD, 0x00D4, 0x00EC, 0x00C3, 0x00C2,
   0x00C9, 0x00C0, 0x00C8, 0x00F4, 0x00F5, 0x00F2, 0x00DA, 0x00F9,
   0x00CC, 0x00D5, 0x00DC, 0x00A2, 0x00A3, 0x00D9, 0x20A7, 0x00D3,
   0x00E1, 0x00ED, 0x00F3, 0x00FA, 0x00F1, 0x00D1, 0x00AA, 0x00BA,
   0x00BF, 0x00D2, 0x00AC, 0x00BD, 0x00BC, 0x00A1, 0x00AB, 0x00BB,
   0x2591, 0x2592, 0x2593, 0x2502, 0x2524, 0x2561, 0x2562, 0x2556,
   0x2555, 0x2563, 0x2551, 0x2557, 0x255D, 0x255C, 0x255B, 0x2510,
   0x2514, 0x2534, 0x252C, 0x251C, 0x2500, 0x253C, 0x255E, 0x255F,
   0x255A, 0x2554, 0x2569, 0x2566, 0x2560, 0x2550, 0x256C, 0x2567,
   0x2568, 0x2564, 0x2565, 0x2559, 0x2558, 0x2552, 0x2553, 0x256B,
   0x256A, 0x2518, 0x250C, 0x2588, 0x2584, 0x258C, 0x2590, 0x2580,
   0x03B1, 0x00DF, 0x0393, 0x03C0, 0x03A3, 0x03C3, 0x00B5, 0x03C4,
   0x03A6, 0x0398, 0x03A9, 0x03B4, 0x221E, 0x03C6, 0x03B5, 0x2229,
   0x2261, 0x00B1, 0x2265, 0x2264, 0x2320, 0x2321, 0x00F7, 0x2248,
   0x00B0, 0x2219, 0x00B7, 0x221A, 0x207F, 0x00B2, 0x25A0, 0x00A0
  ]

/-- Runes of bytes `0x80..0xFF` of Code Page 858 (`charmap.CodePage858`): page
850 with the Euro sign at `0xD5`. -/
def codePage858High : List Nat :=
  [
   0x00C7, 0x00FC, 0x00E9, 0x00E2, 0x00E4, 0x00E0, 0x00E5, 0x00E7,
   0x00EA, 0x00EB, 0x00E8, 0x00EF, 0x00EE, 0x00EC, 0x00C4, 0x00C5,
   0x00C9, 0x00E6, 0x00C6, 0x00F4, 0x00F6, 0x00F2, 0x00FB, 0x00F9,
   0x00FF, 0x00D6, 0x00DC, 0x00F8, 0x00A3, 0x00D8, 0x00D7, 0x0192,
   0x00E1, 0x00ED, 0x00F3, 0x00FA, 0x00F1, 0x00D1, 0x00AA, 0x00BA,
   0x00BF, 0x00AE, 0x00AC, 0x00BD, 0x00BC, 0x00A1, 0x00AB, 0x00BB,
   0x2591, 0x2592, 0x2593, 0x2502, 0x2524, 0x00C1, 0x00C2, 0x00C0,
   0x00A9, 0x2563, 0x2551, 0x2557, 0x255D, 0x00A2, 0x00A5, 0x2510,
   0x2514, 0x2534, 0x252C, 0x251C, 0x2500, 0x253C, 0x00E3, 0x00C3,
   0x255A, 0x2554, 0x2569, 0x2566, 0x2560, 0x2550, 0x256C, 0x00A4,
   0x00F0, 0x00D0, 0x00CA, 0x00CB, 0x00C8, 0x20AC, 0x00CD, 0x00CE,
   0x00CF, 0x2518, 0x250C, 0x2588, 0x2584, 0x00A6, 0x00CC, 0x2580,
   0x00D3, 0x00DF, 0x00D4, 0x00D2, 0x00F5, 0x00D5, 0x00B5, 0x00FE,
   0x00DE, 0x00DA, 0x00DB, 0x00D9, 0x00FD, 0x00DD, 0x00AF, 0x00B4,
   0x00AD, 0x00B1, 0x2017, 0x00BE, 0x00B6, 0x00A7, 0x00F7, 0x00B8,
   0x00B0, 0x00A8, 0x00B7, 0x00B9, 0x00B3, 0x00B2, 0x25A0, 0x00A0
  ]

/-- The upper half of a page's decode table; the lower half is ASCII
(`asciiSuperset` is true and `low` is `0x80` for all four pages). -/
def Charmap.high : Charmap → List Nat
  | .CodePage437 => codePage437High
  | .CodePage850 => codePage850High
  | .CodePage860 => codePage860High
  | .CodePage858 => codePage858High

/-- The search of `charmapEncoder.Transform` for a rune `r ≥ 0x80` in the
page's encode table: the byte in `0x80..0xFF` that decodes to `r`, or `none`
(a repertoire error) when the page has no such byte. -/
def Charmap.encodeRune (cm : Charmap) (r : Nat) : Option Nat :=
  if cm.high.indexOf r < cm.high.length then some (0x80 + cm.high.indexOf r) else none

/-- The loop of `charmapEncoder.Transform` over UTF-8 input, at a position that
still has `skip` bytes of the current rune to step over. `none` is a non-nil
error. -/
def Charmap.transformFrom (cm : Charmap) : Nat → List Nat → Option (List Nat)
  | _, [] => some []
  | k + 1, _ :: rest => cm.transformFrom k rest
  | 0, s0 :: rest =>
    if s0 < RuneSelf then (cm.transformFrom 0 rest).map (fun out => s0 :: out)
    else if (DecodeRuneInString (s0 :: rest)).2 = 1 then none
    else
      match cm.encodeRune (DecodeRuneInString (s0 :: rest)).1 with
      | none => none
      | some b =>
        (cm.transformFrom ((DecodeRuneInString (s0 :: rest)).2 - 1) rest).map
          (fun out => b :: out)

/-- The call `(*encoder).String(text)` on the encoder of a page: the transcoded
bytes, or `none` when it returns an error. -/
def Charmap.String (cm : Charmap) (text : List Nat) : Option (List Nat) :=
  cm.transformFrom 0 text

/-- The rune a page's decoder yields for one byte (`decode[c]`). -/
def Charmap.decodeByte (cm : Charmap) (c : Nat) : Nat :=
  if c < RuneSelf then c else cm.high.getD (c - 0x80) RuneError

/-- Decoding a byte sequence one byte at a time with a page's table. -/
def Charmap.decodeRunes (cm : Charmap) (bs : List Nat) : List Nat :=
  bs.map cm.decodeByte

/-- The output of a page's decoder (`charmapDecoder.Transform`): the UTF-8
bytes of the rune of each input byte. -/
def Charmap.decodeString (cm : Charmap) (bs : List Nat) : List Nat :=
  (bs.map (fun c => EncodeRune (cm.decodeByte c))).flatten

/-! ## `commands/escpos/chartable.go` -/

/-- PC437: USA, Standard Europe (default). -/
def chartablePC437 : Int := 0

/-- PC850: Multilingual Latin. -/
def chartablePC850 : Int := 2

/-- PC860: Portuguese. -/
def chartablePC860 : Int := 3

/-- PC858: Euro. -/
def chartablePC858 : Int := 19

/-! ## `commands/escpos/encoding.go` -/

/-- The encoder state: the current page and the bound `*encoding.Encoder`
(`none` is the nil pointer of a zero-value struct). -/
structure CharsetEncoder where
  currentCharset : Int
  encoder : Option Charmap
  deriving DecidableEq, Repr

/-- The method `updateEncoder`: rebinds the encoder from the current page. -/
def CharsetEncoder.updateEncoder (e : CharsetEncoder) : CharsetEncoder :=
  if e.currentCharset = chartablePC850 then
    { e with encoder := some Charmap.CodePage850 }
  else if e.currentCharset = chartablePC860 then
    { e with encoder := some Charmap.CodePage860 }
  else if e.currentCharset = chartablePC858 then
    { e with encoder := some Charmap.CodePage858 }
  else
    { e with encoder := some Charmap.CodePage437 }

/-- The constructor `NewCharsetEncoder`. -/
def NewCharsetEncoder : CharsetEncoder :=
  CharsetEncoder.updateEncoder { currentCharset := chartablePC437, encoder := none }

/-- The method `SetCharset`. -/
def CharsetEncoder.SetCharset (e : CharsetEncoder) (charset : Int) : CharsetEncoder :=
  CharsetEncoder.updateEncoder { e with currentCharset := charset }

/-- The three flags of `detectBestCharset`. -/
structure DetectFlags where
  hasPortuguese : Bool
  hasEuro : Bool
  hasLatin : Bool
  deriving DecidableEq, Repr

/-- One iteration of the loop body of `detectBestCharset` on the rune `r`. -/
def detectStep (f : DetectFlags) (r : Nat) : DetectFlags :=
  if r > 127 then
    if r = 0x20AC then { f with hasEuro := true }
    else if r ≥ 0xC0 ∧ r ≤ 0xFF then
      if r = 0xE3 ∨ r = 0xF5 ∨ r = 0xE7 ∨ r = 0xC3 ∨ r = 0xD5 ∨ r = 0xC7 then
        { f with hasLatin := true, hasPortuguese := true }
      else { f with hasLatin := true }
    else f
  else f

/-- The method `detectBestCharset`; the receiver is not used. -/
def CharsetEncoder.detectBestCharset (_e : CharsetEncoder) (text : List Nat) : Int :=
  let f := (rangeString text).foldl detectStep ⟨false, false, false⟩
  if f.hasPortuguese then chartablePC860
  else if f.hasEuro then chartablePC858
  else if f.hasLatin then chartablePC850
  else chartablePC437

/-- The guarded attempt `if e.encoder != nil { (*e.encoder).String(text) }`:
`some encoded` when the inner branch `err == nil` is taken. -/
def CharsetEncoder.tryEncode (e : CharsetEncoder) (text : List Nat) : Option (List Nat) :=
  match e.encoder with
  | none => none
  | some enc => enc.String text

/-- The method `smartEncode`: the bytes returned and the encoder afterwards. -/
def CharsetEncoder.smartEncode (e : CharsetEncoder) (text : List Nat) :
    List Nat × CharsetEncoder :=
  match e.tryEncode text with
  | some encoded => (encoded, e)
  | none =>
    let bestCharset := e.detectBestCharset text
    if bestCharset ≠ e.currentCharset then
      let oldCharset := e.currentCharset
      let e1 := e.SetCharset bestCharset
      match e1.tryEncode text with
      | some encoded => (encoded, e1)
      | none => (text, e1.SetCharset oldCharset)
    else (text, e)

/-- The method `EncodeText`: the bytes returned and the encoder afterwards. -/
def CharsetEncoder.EncodeText (e : CharsetEncoder) (text : List Nat) :
    List Nat × CharsetEncoder :=
  if ValidString text = false then (text, e)
  else e.smartEncode text

/-- The interface `CharsetSwitcher` over a device state `D`. The implementer
may hold the very encoder that calls it (`Display` does), so the method sees
and returns the encoder as well as the device. -/
structure CharsetSwitcher (D : Type) where
  SetCharacterCodeTableInternal : Int → CharsetEncoder → D → Option String × CharsetEncoder × D

/-- What a call of `EncodeTextWithAutoCharsetSwitching` leaves behind: the two
return values, the encoder and the device afterwards, and the arguments of the
calls made to the switcher, in order. -/
structure SwitchOutcome (D : Type) where
  bytes : List Nat
  err : Option String
  enc : CharsetEncoder
  dev : D
  calls : List Int

/-- The method `EncodeTextWithAutoCharsetSwitching`. -/
def CharsetEncoder.EncodeTextWithAutoCharsetSwitching {D : Type} (e : CharsetEncoder)
    (text : List Nat) (display : CharsetSwitcher D) (d : D) : SwitchOutcome D :=
  if ValidString text = false then ⟨text, none, e, d, []⟩
  else
    match e.tryEncode text with
    | some encoded => ⟨encoded, none, e, d, []⟩
    | none =>
      let bestCharset := e.detectBestCharset text
      if bestCharset ≠ e.currentCharset then
        let oldCharset := e.currentCharset
        let e1 := e.SetCharset bestCharset
        match e1.tryEncode text with
        | some encoded =>
          match display.SetCharacterCodeTableInternal bestCharset e1 d with
          | (some _, e2, d2) =>
            ⟨text, none, (e2.SetCharset oldCharset).SetCharset oldCharset, d2, [bestCharset]⟩
          | (none, e2, d2) => ⟨encoded, none, e2, d2, [bestCharset]⟩
        | none => ⟨text, none, e1.SetCharset oldCharset, d, []⟩
      else ⟨text, none, e, d, []⟩

/-! ## `commands/escpos/consts.go` and `commands/escpos/commands.go` -/

/-- Escape character, the start of an escape sequence. -/
def CmdEscape : Nat := 0x1B

/-- The command byte of ESC t, set character code table page. -/
def CmdEscCharsetTable : Nat := 0x74

/-- The builder `BuildSetCharsetSeq`: ESC t page. -/
def BuildSetCharsetSeq (page : Nat) : List Nat := [CmdEscape, CmdEscCharsetTable, page]

/-- The conversion `byte(n)` of a Go `int`. -/
def toByte (n : Int) : Nat := (n % 256).toNat

/-- The implementations of the interface `Protocol`; the registry holds one. -/
inductive Protocol where
  | ESCPOS
  deriving DecidableEq, Repr

/-- The method `SetCharset` of a protocol (`ESCPOSProtocol.SetCharset`); `none`
is the nil slice. -/
def Protocol.SetCharset (_p : Protocol) (page : Int) : Option (List Nat) :=
  if page < 0 ∨ page > 255 then none
  else some (BuildSetCharsetSeq (toByte page))

/-! ## `vfd.go` and `display.go` -/

/-- The serial port with the device behind it: the payloads of the writes that
succeeded, oldest first, and the outcomes of the writes to come (`true` is a
success; when the list is used up every write succeeds). A write delivers its
whole payload or nothing. -/
structure Port where
  frames : List (List Nat)
  script : List Bool
  deriving DecidableEq, Repr

/-- The call `port.Write(payload)`: the error and the port afterwards. -/
def Port.Write (p : Port) (payload : List Nat) : Option String × Port :=
  match p.script with
  | false :: rest => (some "write failed", { p with script := rest })
  | true :: rest => (none, { frames := p.frames ++ [payload], script := rest })
  | [] => (none, { p with frames := p.frames ++ [payload] })

/-- The struct `Display` without the port name; `none` is a nil field. -/
structure Display where
  port : Option Port
  columns : Int
  rows : Int
  cursorColumn : Int
  cursorRow : Int
  brightness : Int
  blinkMs : Int
  protocol : Option Protocol
  encoder : Option CharsetEncoder
  deriving DecidableEq, Repr

/-- The method `writeBytes`. -/
def Display.writeBytes (d : Display) (payload : List Nat) : Option String × Display :=
  match d.port with
  | none => (some "display is not open", d)
  | some p => ((p.Write payload).1, { d with port := some (p.Write payload).2 })

/-- The method `SetCharacterCodeTableInternal`, called as the switcher of the
encoder `e`. The field `d.encoder`, when it is not nil, points to `e` itself,
so `d.encoder.SetCharset(page)` acts on `e`. -/
def Display.SetCharacterCodeTableInternal (d : Display) (page : Int) (e : CharsetEncoder) :
    Option String × CharsetEncoder × Display :=
  match d.protocol with
  | none => (some "no command protocol set", e, d)
  | some protocol =>
    if page < 0 ∨ page > 255 then (some "page must be between 0 and 255", e, d)
    else
      match protocol.SetCharset page with
      | none => (some "invalid charset page for this protocol", e, d)
      | some cmd =>
        ((d.writeBytes cmd).1, (if d.encoder.isSome then e.SetCharset page else e),
          (d.writeBytes cmd).2)

/-- The display as the `CharsetSwitcher` it implements. -/
def displaySwitcher : CharsetSwitcher Display :=
  ⟨fun page e d => d.SetCharacterCodeTableInternal page e⟩

/-- The device as a page register: a delivered frame ESC t n sets the register
to n, every other frame leaves it. -/
def deviceStep (page : Int) (frame : List Nat) : Int :=
  match frame with
  | [0x1B, 0x74, n] => (n : Int)
  | _ => page

/-- The page register of the device behind a display that powered on with the
page `powerOn`. -/
def Display.devicePage (powerOn : Int) (d : Display) : Int :=
  match d.port with
  | none => powerOn
  | some p => p.frames.foldl deviceStep powerOn

/-- A run of calls of `EncodeTextWithAutoCharsetSwitching`, one per text, each
starting from the encoder and the device the one before left behind. -/
def syncRun {D : Type} (display : CharsetSwitcher D) :
    List (List Nat) → CharsetEncoder × D → CharsetEncoder × D
  | [], s => s
  | text :: rest, s =>
    syncRun display rest
      ((s.1.EncodeTextWithAutoCharsetSwitching text display s.2).enc,
        (s.1.EncodeTextWithAutoCharsetSwitching text display s.2).dev)

/-! ## More of `consts.go`, `commands.go` and `display.go`; `vfd/cursor.go` -/

/-- Unit separator, the start of a device command. -/
def CmdUnitSeparator : Nat := 0x1F

/-- The command byte of US $, set cursor position. -/
def CmdUSSetCursor : Nat := 0x24

/-- The command byte of US E, set cursor blink period. -/
def CmdUSSetBlink : Nat := 0x45

/-- The command byte of US X, set brightness level. -/
def CmdUSSetBrightness : Nat := 0x58

/-- The builder `BuildSetCursorSeq`: US $ column row. -/
def BuildSetCursorSeq (column row : Nat) : List Nat :=
  [CmdUnitSeparator, CmdUSSetCursor, column, row]

/-- The builder `BuildSetBrightnessSeq`: US X level. -/
def BuildSetBrightnessSeq (level : Nat) : List Nat :=
  [CmdUnitSeparator, CmdUSSetBrightness, level]

/-- The builder `BuildSetBlinkSeq`: US E steps. -/
def BuildSetBlinkSeq (steps : Nat) : List Nat :=
  [CmdUnitSeparator, CmdUSSetBlink, steps]

/-- The method `MoveCursor` of a protocol; `none` is the nil slice. -/
def Protocol.MoveCursor (_p : Protocol) (column row : Int) : Option (List Nat) :=
  if column < 1 ∨ column > 255 ∨ row < 1 ∨ row > 255 then none
  else some (BuildSetCursorSeq (toByte column) (toByte row))

/-- The method `SetBrightness` of a protocol; `none` is the nil slice. -/
def Protocol.SetBrightness (_p : Protocol) (level : Int) : Option (List Nat) :=
  if level < 1 ∨ level > 4 then none
  else some (BuildSetBrightnessSeq (toByte level))

/-- The method `SetBlink` of a protocol; `none` is the nil slice. The quotient
is Go's truncating division and `byte(...)` keeps its low eight bits. -/
def Protocol.SetBlink (_p : Protocol) (intervalMs : Int) : Option (List Nat) :=
  if intervalMs < 0 then none
  else some (BuildSetBlinkSeq (toByte (Int.tdiv intervalMs 50)))

/-- The method `SetBrightness` of `display.go`. -/
def Display.SetBrightness (d : Display) (level : Int) : Option String × Display :=
  match d.protocol with
  | none => (some "no command protocol set", d)
  | some protocol =>
    if level < 1 ∨ level > 4 then (some "brightness level must be between 1 and 4", d)
    else
      match protocol.SetBrightness level with
      | none => (some "invalid brightness level for this protocol", d)
      | some cmd =>
        match d.writeBytes cmd with
        | (some err, d1) => (some err, d1)
        | (none, d1) => (none, { d1 with brightness := level })

/-- The method `GetBrightness`. -/
def Display.GetBrightness (d : Display) : Int := d.brightness

/-- The method `SetBlink` of `display.go`. -/
def Display.SetBlink (d : Display) (ms : Int) : Option String × Display :=
  match d.port with
  | none => (some "display is not open", d)
  | some _ =>
    match d.protocol with
    | none => (some "no command protocol set", d)
    | some protocol =>
      if ms < 0 then (some "blink ms must be >= 0", d)
      else
        match protocol.SetBlink ms with
        | none => (some "invalid blink interval for this protocol", d)
        | some cmd =>
          match d.writeBytes cmd with
          | (some err, d1) => (some err, d1)
          | (none, d1) => (none, { d1 with blinkMs := ms })

/-- The method `GetBlinkMs`. -/
def Display.GetBlinkMs (d : Display) : Int := d.blinkMs

/-- The method `SetCursor` of `vfd/cursor.go`. The struct of that package has
the fields of `Display` used here; its `commandProfile` with a protocol is the
field `protocol`, nil when the profile or its protocol is nil. -/
def Display.SetCursor (d : Display) (column row : Int) : Option String × Display :=
  if d.cursorColumn = column ∧ d.cursorRow = row then (none, d)
  else if column < 1 ∨ row < 1 then (some "column/row must be >= 1", d)
  else if d.columns > 0 ∧ column > d.columns then (some "column exceeds configured width", d)
  else if d.rows > 0 ∧ row > d.rows then (some "row exceeds configured height", d)
  else if column > 255 ∨ row > 255 then (some "column/row out of device range", d)
  else
    match d.protocol with
    | none =>
      (some "no command profile set", { d with cursorColumn := column, cursorRow := row })
    | some protocol =>
      match protocol.MoveCursor column row with
      | none =>
        (some "invalid cursor position for this protocol",
          { d with cursorColumn := column, cursorRow := row })
      | some cmd => Display.writeBytes { d with cursorColumn := column, cursorRow := row } cmd

/-- The method `GetCursor`. -/
def Display.GetCursor (d : Display) : Int × Int := (d.cursorColumn, d.cursorRow)

/-- The largest value of Go's `int`, 64 bits wide: 2^63 - 1. -/
def MaxInt : Int := 9223372036854775807

/-- The value Go gives a sum or difference of `int`s whose exact value is `x`:
the two's complement wrap-around of `x` into -2^63 .. 2^63 - 1. -/
def wrapInt (x : Int) : Int :=
  (x + 9223372036854775808) % 18446744073709551616 - 9223372036854775808

/-- The method `advanceCursorBy` of `vfd/cursor.go`, with Go's wrapping
addition and subtraction and its truncating division and remainder. The method
of the same name that `WriteText` of `display.go` calls is not among the
sources and is taken to be this one. -/
def Display.advanceCursorBy (d : Display) (chars : Int) : Display :=
  if chars ≤ 0 then d
  else if d.columns ≤ 0 ∨ d.rows ≤ 0 then d
  else
    let cursorColumn := if d.cursorColumn < 1 then 1 else d.cursorColumn
    let cursorRow := if d.cursorRow < 1 then 1 else d.cursorRow
    let zeroBasedCol := wrapInt (cursorColumn - 1)
    let total := wrapInt (zeroBasedCol + chars)
    let rowsAdded := Int.tdiv total d.columns
    let newColZero := Int.tmod total d.columns
    let newRow := wrapInt (cursorRow + rowsAdded)
    { d with
      cursorColumn := wrapInt (newColZero + 1),
      cursorRow :=
        if d.rows > 0 then wrapInt (Int.tmod (wrapInt (newRow - 1)) d.rows + 1) else newRow }

/-- The method `smartEncodeText`: the two return values and the display
afterwards. The encoder the display points to is passed to its method and
stored back when the call returns. -/
def Display.smartEncodeText (d : Display) (text : List Nat) :
    (List Nat × Option String) × Display :=
  match d.encoder with
  | none => ((text, none), d)
  | some e =>
    (((e.EncodeTextWithAutoCharsetSwitching text displaySwitcher d).bytes,
        (e.EncodeTextWithAutoCharsetSwitching text displaySwitcher d).err),
      { (e.EncodeTextWithAutoCharsetSwitching text displaySwitcher d).dev with
        encoder := some (e.EncodeTextWithAutoCharsetSwitching text displaySwitcher d).enc })

/-- The method `WriteText` of `display.go`. -/
def Display.WriteText (d : Display) (message : List Nat) : Option String × Display :=
  match d.protocol with
  | none => (some "no command protocol set", d)
  | some _ =>
    match d.smartEncodeText message with
    | ((_, some err), d1) => (some err, d1)
    | ((encodedBytes, none), d1) =>
      match d1.writeBytes encodedBytes with
      | (some err, d2) => (some err, d2)
      | (none, d2) => (none, d2.advanceCursorBy encodedBytes.length)

/-! ## Vocabulary of the specification -/

/-- The transcoding table of a page: PC850, PC860 and PC858 for pages 2, 3
and 19, the PC437 table for every other value. -/
def pageTable (page : Int) : Charmap :=
  if page = chartablePC850 then Charmap.CodePage850
  else if page = chartablePC860 then Charmap.CodePage860
  else if page = chartablePC858 then Charmap.CodePage858
  else Charmap.CodePage437

/-- The encoder is bound to the table of its current page. -/
def CharsetEncoder.Bound (e : CharsetEncoder) : Prop :=
  e.encoder = some (pageTable e.currentCharset)

/-- A page has a mapping for a rune: ASCII, or a rune of its upper half. -/
def Charmap.maps (cm : Charmap) (r : Nat) : Prop := r < 128 ∨ r ∈ cm.high

/-- A text is representable under a page: every character has a mapping. -/
def Charmap.representable (cm : Charmap) (text : List Nat) : Prop :=
  ∀ r ∈ rangeString text, cm.maps r

/-- The byte of a mapped rune under a page. -/
def Charmap.byteOf (cm : Charmap) (r : Nat) : Nat :=
  if r < 128 then r else 0x80 + cm.high.indexOf r

/-- The transcoding of a text under a page: one byte per character. -/
def Charmap.transcode (cm : Charmap) (text : List Nat) : List Nat :=
  (rangeString text).map cm.byteOf

instance (cm : Charmap) (r : Nat) : Decidable (cm.maps r) := by
  unfold Charmap.maps; infer_instance

instance (cm : Charmap) (text : List Nat) : Decidable (cm.representable text) := by
  unfold Charmap.representable; infer_instance

instance (e : CharsetEncoder) : Decidable e.Bound := by
  unfold CharsetEncoder.Bound; infer_instance

/-- A switcher leaves the calling encoder alone or, as `Display` does, calls
its `SetCharset` with the page it was asked for. -/
def CharsetSwitcher.OnlySetsRequestedPage {D : Type} (sw : CharsetSwitcher D) : Prop :=
  ∀ (page : Int) (e : CharsetEncoder) (d : D),
    (sw.SetCharacterCodeTableInternal page e d).2.1 = e ∨
      (sw.SetCharacterCodeTableInternal page e d).2.1 = e.SetCharset page

/-- A switcher drives the page register `reg` of its device: a successful
switch sets the register to the requested page and a failed switch leaves it
unchanged. -/
def CharsetSwitcher.DrivesRegister {D : Type} (sw : CharsetSwitcher D) (reg : D → Int) : Prop :=
  ∀ (page : Int) (e : CharsetEncoder) (d : D),
    ((sw.SetCharacterCodeTableInternal page e d).1 = none →
        reg (sw.SetCharacterCodeTableInternal page e d).2.2 = page) ∧
      ((sw.SetCharacterCodeTableInternal page e d).1 ≠ none →
        reg (sw.SetCharacterCodeTableInternal page e d).2.2 = reg d)

/-- The characters ã, õ, ç, Ã, Õ, Ç. -/
def portugueseMarkers : List Nat := [0xE3, 0xF5, 0xE7, 0xC3, 0xD5, 0xC7]

/-- A display on an open port whose coming writes follow `script`, as `Open`
leaves it for a 20 by 2 device. -/
def openDisplay (script : List Bool) : Display :=
  { port := some { frames := [], script := script }, columns := 20, rows := 2,
    cursorColumn := 0, cursorRow := 0, brightness := 0, blinkMs := 0,
    protocol := some Protocol.ESCPOS, encoder := some NewCharsetEncoder }

/-- Every coming write of the port succeeds. -/
def Port.Working (p : Port) : Prop := ∀ b ∈ p.script, b = true

/-- The bytes delivered to the device behind a display, in order. -/
def Display.wire (d : Display) : List Nat :=
  match d.port with
  | none => []
  | some p => p.frames.flatten

/-- The rank of a page in the order PC860 > PC858 > PC850 > PC437. -/
def pagePriority (page : Int) : Nat :=
  if page = chartablePC860 then 3
  else if page = chartablePC858 then 2
  else if page = chartablePC850 then 1
  else 0

/-- The higher-priority of two pages. -/
def higherPriority (a b : Int) : Int :=
  if pagePriority b ≤ pagePriority a then a else b

/-- The linear index of a cursor position on a display `columns` wide. -/
def linearIndex (columns column row : Int) : Int := (row - 1) * columns + (column - 1)

instance (p : Port) : Decidable p.Working := by
  unfold Port.Working; infer_instance

/-- A switcher whose hardware switch always fails and that touches nothing. -/
def failingSwitcher : CharsetSwitcher Unit :=
  ⟨fun _ e d => (some "write failed", e, d)⟩

/-- The text "café" as UTF-8 bytes. -/
def textCafe : List Nat := [0x63, 0x61, 0x66, 0xC3, 0xA9]

/-- The text "ação" as UTF-8 bytes. -/
def textAcao : List Nat := [0x61, 0xC3, 0xA7, 0xC3, 0xA3, 0x6F]

/-- The text "€19.99" as UTF-8 bytes. -/
def textEuroPrice : List Nat := [0xE2, 0x82, 0xAC, 0x31, 0x39, 0x2E, 0x39, 0x39]

/-- The text "中" (U+4E2D, a CJK ideograph) as UTF-8 bytes. -/
def textCJK : List Nat := [0xE4, 0xB8, 0xAD]

/-- The text "ãï" as UTF-8 bytes. -/
def textAtildeIuml : List Nat := [0xC3, 0xA3, 0xC3, 0xAF]

set_option maxRecDepth 100000

/-! ## Lemmas on the bit arithmetic of the decoder -/

theorem and_1F (x : Nat) : x &&& 0x1F = x % 32 := Nat.and_pow_two_sub_one_eq_mod x 5

theorem and_3F (x : Nat) : x &&& 0x3F = x % 64 := Nat.and_pow_two_sub_one_eq_mod x 6

theorem and_0F (x : Nat) : x &&& 0x0F = x % 16 := Nat.and_pow_two_sub_one_eq_mod x 4

theorem and_07 (x : Nat) : x &&& 0x07 = x % 8 := Nat.and_pow_two_sub_one_eq_mod x 3

theorem or_low6 (a b : Nat) (h : b < 64) : (64 * a) ||| b = 64 * a + b :=
  (Nat.mul_add_lt_is_or (show b < 2 ^ 6 from h) a).symm

theorem bits2 (s0 s1 : Nat) :
    ((s0 &&& 0x1F) <<< 6) ||| (s1 &&& 0x3F) = (s0 % 32) * 64 + s1 % 64 := by
  rw [and_1F, and_3F, Nat.shiftLeft_eq]
  have h : s1 % 64 < 64 := Nat.mod_lt _ (by decide)
  have e : s0 % 32 * 2 ^ 6 = 64 * (s0 % 32) := by omega
  rw [e, or_low6 _ _ h]
  omega

theorem bits3 (s0 s1 s2 : Nat) :
    ((s0 &&& 0x0F) <<< 12) ||| ((s1 &&& 0x3F) <<< 6) ||| (s2 &&& 0x3F)
      = (s0 % 16) * 4096 + (s1 % 64) * 64 + s2 % 64 := by
  rw [and_0F, and_3F, and_3F, Nat.shiftLeft_eq, Nat.shiftLeft_eq]
  have h1 : s1 % 64 < 64 := Nat.mod_lt _ (by decide)
  have h2 : s2 % 64 < 64 := Nat.mod_lt _ (by decide)
  have e1 : s0 % 16 * 2 ^ 12 = 2 ^ 12 * (s0 % 16) := by omega
  have hb : s1 % 64 * 2 ^ 6 < 2 ^ 12 := by omega
  rw [e1, ← Nat.mul_add_lt_is_or hb]
  have e2 : 2 ^ 12 * (s0 % 16) + s1 % 64 * 2 ^ 6 = 64 * ((s0 % 16) * 64 + s1 % 64) := by omega
  rw [e2, or_low6 _ _ h2]
  omega

theorem bits4 (s0 s1 s2 s3 : Nat) :
    ((s0 &&& 0x07) <<< 18) ||| ((s1 &&& 0x3F) <<< 12) ||| ((s2 &&& 0x3F) <<< 6) |||
      (s3 &&& 0x3F)
      = (s0 % 8) * 262144 + (s1 % 64) * 4096 + (s2 % 64) * 64 + s3 % 64 := by
  rw [and_07, and_3F, and_3F, and_3F, Nat.shiftLeft_eq, Nat.shiftLeft_eq, Nat.shiftLeft_eq]
  have h1 : s1 % 64 < 64 := Nat.mod_lt _ (by decide)
  have h2 : s2 % 64 < 64 := Nat.mod_lt _ (by decide)
  have h3 : s3 % 64 < 64 := Nat.mod_lt _ (by decide)
  have e1 : s0 % 8 * 2 ^ 18 = 2 ^ 18 * (s0 % 8) := by omega
  have hb : s1 % 64 * 2 ^ 12 < 2 ^ 18 := by omega
  rw [e1, ← Nat.mul_add_lt_is_or hb]
  have e2 : 2 ^ 18 * (s0 % 8) + s1 % 64 * 2 ^ 12 = 2 ^ 12 * ((s0 % 8) * 64 + s1 % 64) := by
    omega
  have hc : s2 % 64 * 2 ^ 6 < 2 ^ 12 := by omega
  rw [e2, ← Nat.mul_add_lt_is_or hc]
  have e3 : 2 ^ 12 * ((s0 % 8) * 64 + s1 % 64) + s2 % 64 * 2 ^ 6
      = 64 * (((s0 % 8) * 64 + s1 % 64) * 64 + s2 % 64) := by omega
  rw [e3, or_low6 _ _ h3]
  omega

theorem leadSize_cases (s0 : Nat) :
    leadSize s0 = 0 ∨ (leadSize s0 = 2 ∧ 0xC2 ≤ s0 ∧ s0 ≤ 0xDF) ∨
      (leadSize s0 = 3 ∧ 0xE0 ≤ s0 ∧ s0 ≤ 0xEF) ∨ (leadSize s0 = 4 ∧ 0xF0 ≤ s0 ∧ s0 ≤ 0xF4) := by
  unfold leadSize
  split_ifs <;> omega

/-- What a multi-byte decode that does not fail looks like. -/
theorem decode_multi (s0 : Nat) (rest : List Nat) (h0 : ¬ s0 < RuneSelf)
    (h1 : ¬ (DecodeRuneInString (s0 :: rest)).2 = 1) :
    (∃ s1 t, rest = s1 :: t ∧ 0xC2 ≤ s0 ∧ s0 ≤ 0xDF ∧ 0x80 ≤ s1 ∧ s1 ≤ 0xBF ∧
      DecodeRuneInString (s0 :: rest) = ((s0 % 32) * 64 + s1 % 64, 2)) ∨
    (∃ s1 s2 t, rest = s1 :: s2 :: t ∧ 0xE0 ≤ s0 ∧ s0 ≤ 0xEF ∧
      acceptLo s0 ≤ s1 ∧ s1 ≤ acceptHi s0 ∧ 0x80 ≤ s2 ∧ s2 ≤ 0xBF ∧
      DecodeRuneInString (s0 :: rest)
        = ((s0 % 16) * 4096 + (s1 % 64) * 64 + s2 % 64, 3)) ∨
    (∃ s1 s2 s3 t, rest = s1 :: s2 :: s3 :: t ∧ 0xF0 ≤ s0 ∧ s0 ≤ 0xF4 ∧
      acceptLo s0 ≤ s1 ∧ s1 ≤ acceptHi s0 ∧ 0x80 ≤ s2 ∧ s2 ≤ 0xBF ∧ 0x80 ≤ s3 ∧ s3 ≤ 0xBF ∧
      DecodeRuneInString (s0 :: rest)
        = ((s0 % 8) * 262144 + (s1 % 64) * 4096 + (s2 % 64) * 64 + s3 % 64, 4)) := by
  rcases leadSize_cases s0 with hl | ⟨hl, ha, hb⟩ | ⟨hl, ha, hb⟩ | ⟨hl, ha, hb⟩
  · simp [DecodeRuneInString, h0, hl] at h1
  · left
    cases rest with
    | nil => simp [DecodeRuneInString, h0, hl] at h1
    | cons s1 t =>
      by_cases hr : s1 < acceptLo s0 ∨ acceptHi s0 < s1
      · simp [DecodeRuneInString, h0, hl, hr] at h1
      · have hlo : acceptLo s0 = 0x80 := by unfold acceptLo; split_ifs <;> omega
        have hhi : acceptHi s0 = 0xBF := by unfold acceptHi; split_ifs <;> omega
        refine ⟨s1, t, rfl, ha, hb, by omega, by omega, ?_⟩
        simp [DecodeRuneInString, h0, hl, hr, bits2]
  · right; left
    have h3 : ¬ leadSize s0 ≤ 2 := by omega
    cases rest with
    | nil => simp [DecodeRuneInString, h0, hl] at h1
    | cons s1 t =>
      by_cases hr : s1 < acceptLo s0 ∨ acceptHi s0 < s1
      · simp [DecodeRuneInString, h0, hl, hr] at h1
      · cases t with
        | nil => simp [DecodeRuneInString, h0, hl, hr] at h1
        | cons s2 t2 =>
          by_cases hr2 : s2 < 0x80 ∨ 0xBF < s2
          · simp [DecodeRuneInString, h0, hl, hr, hr2] at h1
          · refine ⟨s1, s2, t2, rfl, ha, hb, by omega, by omega, by omega, by omega, ?_⟩
            simp [DecodeRuneInString, h0, hl, hr, hr2, bits3]
  · right; right
    cases rest with
    | nil => simp [DecodeRuneInString, h0, hl] at h1
    | cons s1 t =>
      by_cases hr : s1 < acceptLo s0 ∨ acceptHi s0 < s1
      · simp [DecodeRuneInString, h0, hl, hr] at h1
      · cases t with
        | nil => simp [DecodeRuneInString, h0, hl, hr] at h1
        | cons s2 t2 =>
          by_cases hr2 : s2 < 0x80 ∨ 0xBF < s2
          · simp [DecodeRuneInString, h0, hl, hr, hr2] at h1
          · cases t2 with
            | nil => simp [DecodeRuneInString, h0, hl, hr, hr2] at h1
            | cons s3 t3 =>
              by_cases hr3 : s3 < 0x80 ∨ 0xBF < s3
              · simp [DecodeRuneInString, h0, hl, hr, hr2, hr3] at h1
              · refine ⟨s1, s2, s3, t3, rfl, ha, hb, by omega, by omega, by omega, by omega,
                  by omega, by omega, ?_⟩
                simp [DecodeRuneInString, h0, hl, hr, hr2, hr3, bits4]

theorem acceptHi_le (s0 : Nat) : acceptHi s0 ≤ 0xBF := by
  unfold acceptHi; split_ifs <;> omega

theorem acceptLo_ge (s0 : Nat) : 0x80 ≤ acceptLo s0 := by
  unfold acceptLo; split_ifs <;> omega

/-- A multi-byte decode that does not fail yields a rune of at least `0x80`. -/
theorem decode_multi_ge (s0 : Nat) (rest : List Nat) (h0 : ¬ s0 < RuneSelf)
    (h1 : ¬ (DecodeRuneInString (s0 :: rest)).2 = 1) :
    ¬ (DecodeRuneInString (s0 :: rest)).1 < RuneSelf := by
  have hs : RuneSelf = 0x80 := rfl
  rcases decode_multi s0 rest h0 h1 with ⟨s1, t, _, ha, hb, hc, hd, he⟩ |
    ⟨s1, s2, t, _, ha, hb, hc, hd, _, _, he⟩ |
    ⟨s1, s2, s3, t, _, ha, hb, hc, hd, _, _, _, _, he⟩
  · rw [he, hs]; simp only; omega
  · rw [he, hs]; simp only
    have := acceptHi_le s0
    unfold acceptLo at hc
    split_ifs at hc <;> omega
  · rw [he, hs]; simp only
    have := acceptHi_le s0
    unfold acceptLo at hc
    split_ifs at hc <;> omega

/-! ## Lemmas on the state -/

theorem updateEncoder_eq (e : CharsetEncoder) :
    e.updateEncoder = ⟨e.currentCharset, some (pageTable e.currentCharset)⟩ := by
  unfold CharsetEncoder.updateEncoder pageTable
  split_ifs <;> rfl

theorem SetCharset_eq (e : CharsetEncoder) (p : Int) :
    e.SetCharset p = ⟨p, some (pageTable p)⟩ := by
  unfold CharsetEncoder.SetCharset
  rw [updateEncoder_eq]

theorem SetCharset_bound (e : CharsetEncoder) (p : Int) : (e.SetCharset p).Bound := by
  rw [SetCharset_eq]; rfl

theorem bound_eq {e : CharsetEncoder} (h : e.Bound) :
    e = ⟨e.currentCharset, some (pageTable e.currentCharset)⟩ := by
  cases e with
  | mk c enc =>
    simp only [CharsetEncoder.Bound] at h
    subst h
    rfl

theorem tryEncode_bound {e : CharsetEncoder} (h : e.Bound) (text : List Nat) :
    e.tryEncode text = (pageTable e.currentCharset).String text := by
  unfold CharsetEncoder.tryEncode
  rw [h]

/-! ## Lemmas on the decoder loop -/

theorem decode_ascii (s0 : Nat) (rest : List Nat) (h : s0 < RuneSelf) :
    DecodeRuneInString (s0 :: rest) = (s0, 1) := by
  simp [DecodeRuneInString, h]

theorem byteOf_of_maps (cm : Charmap) (r : Nat) (h : cm.maps r) (hr : ¬ r < RuneSelf) :
    cm.encodeRune r = some (cm.byteOf r) := by
  have hr2 : ¬ r < 128 := hr
  rcases h with h | h
  · exact absurd h hr2
  · have hi : cm.high.indexOf r < cm.high.length := List.indexOf_lt_length.mpr h
    simp [Charmap.encodeRune, Charmap.byteOf, hi, hr2]

theorem maps_of_encodeRune (cm : Charmap) (r b : Nat) (h : cm.encodeRune r = some b) :
    cm.maps r := by
  unfold Charmap.encodeRune at h
  split_ifs at h with hi
  exact Or.inr (List.indexOf_lt_length.mp hi)

/-- On well-formed input whose characters all have a mapping, the encoder loop
yields one byte per character. -/
theorem transformFrom_of_maps (cm : Charmap) :
    ∀ (s : List Nat) (k : Nat), validFrom k s = true →
      (∀ r ∈ rangeFrom k s, cm.maps r) →
      cm.transformFrom k s = some ((rangeFrom k s).map cm.byteOf) := by
  intro s
  induction s with
  | nil => intro k _ _; cases k <;> rfl
  | cons s0 rest ih =>
    intro k hv hm
    cases k with
    | succ k =>
      simp only [validFrom, rangeFrom, Charmap.transformFrom] at hv hm ⊢
      exact ih k hv hm
    | zero =>
      simp only [rangeFrom, List.mem_cons, forall_eq_or_imp] at hm
      by_cases h0 : s0 < RuneSelf
      · simp only [validFrom, h0, if_true] at hv
        rw [decode_ascii s0 rest h0] at hm
        simp only [Charmap.transformFrom, h0, if_true, rangeFrom, decode_ascii s0 rest h0,
          List.map_cons]
        rw [ih 0 hv hm.2]
        have : s0 < 128 := h0
        simp [Charmap.byteOf, this]
      · simp only [validFrom, h0, if_false] at hv
        split_ifs at hv with h1
        simp only [Charmap.transformFrom, h0, if_false, h1, rangeFrom, List.map_cons]
        rw [byteOf_of_maps cm _ hm.1 (decode_multi_ge s0 rest h0 h1)]
        simp only [ih _ hv hm.2, Option.map_some']

/-- When the encoder loop succeeds on well-formed input, every character has a
mapping. -/
theorem maps_of_transformFrom (cm : Charmap) :
    ∀ (s : List Nat) (k : Nat) (out : List Nat), validFrom k s = true →
      cm.transformFrom k s = some out → ∀ r ∈ rangeFrom k s, cm.maps r := by
  intro s
  induction s with
  | nil => intro k out _ _ r hr; cases k <;> simp [rangeFrom] at hr
  | cons s0 rest ih =>
    intro k out hv ht
    cases k with
    | succ k =>
      simp only [validFrom, rangeFrom, Charmap.transformFrom] at hv ht ⊢
      exact ih k out hv ht
    | zero =>
      simp only [rangeFrom, List.mem_cons, forall_eq_or_imp]
      by_cases h0 : s0 < RuneSelf
      · simp only [validFrom, h0, if_true] at hv
        simp only [Charmap.transformFrom, h0, if_true, Option.map_eq_some'] at ht
        obtain ⟨out2, ho, _⟩ := ht
        rw [decode_ascii s0 rest h0]
        exact ⟨Or.inl h0, ih 0 out2 hv ho⟩
      · simp only [validFrom, h0, if_false] at hv
        split_ifs at hv with h1
        simp only [Charmap.transformFrom, h0, if_false, h1] at ht
        cases hb : cm.encodeRune (DecodeRuneInString (s0 :: rest)).1 with
        | none => simp [hb] at ht
        | some b =>
          simp only [hb, Option.map_eq_some'] at ht
          obtain ⟨out2, ho, _⟩ := ht
          exact ⟨maps_of_encodeRune cm _ b hb, ih _ out2 hv ho⟩

/-- On well-formed text, `String` succeeds exactly on the representable texts
and then returns the transcoding. -/
theorem String_of_representable (cm : Charmap) (text : List Nat) (hv : ValidString text = true)
    (hr : cm.representable text) : cm.String text = some (cm.transcode text) :=
  transformFrom_of_maps cm text 0 hv hr

theorem String_none_of_not_representable (cm : Charmap) (text : List Nat)
    (hv : ValidString text = true) (hr : ¬ cm.representable text) : cm.String text = none := by
  cases h : cm.String text with
  | none => rfl
  | some out => exact absurd (maps_of_transformFrom cm text 0 out hv h) hr

/-! ## ASCII text -/

theorem validFrom_ascii : ∀ (s : List Nat), (∀ b ∈ s, b < 128) → validFrom 0 s = true := by
  intro s
  induction s with
  | nil => intro _; rfl
  | cons s0 rest ih =>
    intro h
    have h0 : s0 < RuneSelf := h s0 (List.mem_cons_self _ _)
    simp only [validFrom, h0, if_true]
    exact ih (fun b hb => h b (List.mem_cons_of_mem _ hb))

theorem transformFrom_ascii (cm : Charmap) :
    ∀ (s : List Nat), (∀ b ∈ s, b < 128) → cm.transformFrom 0 s = some s := by
  intro s
  induction s with
  | nil => intro _; rfl
  | cons s0 rest ih =>
    intro h
    have h0 : s0 < RuneSelf := h s0 (List.mem_cons_self _ _)
    simp only [Charmap.transformFrom, h0, if_true]
    rw [ih (fun b hb => h b (List.mem_cons_of_mem _ hb))]
    rfl

/-! ## The three outcomes of `EncodeText` on well-formed text -/

theorem EncodeText_current {e : CharsetEncoder} (hb : e.Bound) (text : List Nat)
    (hv : ValidString text = true)
    (hr : (pageTable e.currentCharset).representable text) :
    e.EncodeText text = ((pageTable e.currentCharset).transcode text, e) := by
  unfold CharsetEncoder.EncodeText CharsetEncoder.smartEncode
  rw [tryEncode_bound hb, String_of_representable _ text hv hr]
  simp [hv]

theorem EncodeText_switch {e : CharsetEncoder} (hb : e.Bound) (text : List Nat)
    (hv : ValidString text = true)
    (hr : ¬ (pageTable e.currentCharset).representable text)
    (hne : e.detectBestCharset text ≠ e.currentCharset)
    (hbest : (pageTable (e.detectBestCharset text)).representable text) :
    e.EncodeText text = ((pageTable (e.detectBestCharset text)).transcode text,
      ⟨e.detectBestCharset text, some (pageTable (e.detectBestCharset text))⟩) := by
  unfold CharsetEncoder.EncodeText CharsetEncoder.smartEncode
  rw [tryEncode_bound hb, String_none_of_not_representable _ text hv hr]
  simp only [hv, Bool.true_eq_false, if_false, ne_eq, hne, not_false_eq_true, if_true]
  rw [tryEncode_bound (SetCharset_bound _ _), SetCharset_eq]
  simp only
  rw [String_of_representable _ text hv hbest]

theorem EncodeText_fallback {e : CharsetEncoder} (hb : e.Bound) (text : List Nat)
    (hv : ValidString text = true)
    (hr : ¬ (pageTable e.currentCharset).representable text)
    (hbest : ¬ (pageTable (e.detectBestCharset text)).representable text) :
    e.EncodeText text = (text, e) := by
  unfold CharsetEncoder.EncodeText CharsetEncoder.smartEncode
  rw [tryEncode_bound hb, String_none_of_not_representable _ text hv hr]
  simp only [hv, Bool.true_eq_false, if_false, ne_eq]
  split_ifs with hne
  · rfl
  · rw [tryEncode_bound (SetCharset_bound _ _), SetCharset_eq]
    simp only
    rw [String_none_of_not_representable _ text hv hbest]
    simp only [SetCharset_eq]
    rw [← bound_eq hb]

/-! ## The classifier -/

theorem detectStep_portuguese_mono (f : DetectFlags) (r : Nat) (h : f.hasPortuguese = true) :
    (detectStep f r).hasPortuguese = true := by
  unfold detectStep
  split_ifs <;> simp [h]

theorem foldl_portuguese_mono (l : List Nat) :
    ∀ f : DetectFlags, f.hasPortuguese = true →
      (l.foldl detectStep f).hasPortuguese = true := by
  induction l with
  | nil => intro f h; exact h
  | cons r l ih => intro f h; exact ih _ (detectStep_portuguese_mono f r h)

theorem detectStep_portuguese (f : DetectFlags) (r : Nat)
    (h : r ∈ [0xE3, 0xF5, 0xE7, 0xC3, 0xD5, 0xC7]) : (detectStep f r).hasPortuguese = true := by
  simp only [List.mem_cons, List.mem_singleton, List.not_mem_nil, or_false] at h
  unfold detectStep
  rcases h with h | h | h | h | h | h <;> subst h <;> simp

theorem foldl_portuguese (l : List Nat) :
    ∀ f : DetectFlags, (∃ r ∈ l, r ∈ [0xE3, 0xF5, 0xE7, 0xC3, 0xD5, 0xC7]) →
      (l.foldl detectStep f).hasPortuguese = true := by
  induction l with
  | nil => intro f h; obtain ⟨r, hr, _⟩ := h; cases hr
  | cons a l ih =>
    intro f h
    obtain ⟨r, hr, hp⟩ := h
    rcases List.mem_cons.mp hr with rfl | hr
    · exact foldl_portuguese_mono l _ (detectStep_portuguese f r hp)
    · exact ih _ ⟨r, hr, hp⟩

/-! ## Decoding what was encoded -/

theorem decodeByte_byteOf (cm : Charmap) (r : Nat) (h : cm.maps r) :
    cm.decodeByte (cm.byteOf r) = r := by
  unfold Charmap.decodeByte Charmap.byteOf RuneSelf
  by_cases hr : r < 128
  · simp [hr]
  · rcases h with h | h
    · exact absurd h hr
    · have hi : cm.high.indexOf r < cm.high.length := List.indexOf_lt_length.mpr h
      have hge : ¬ (0x80 + cm.high.indexOf r < 0x80) := by omega
      simp only [hr, if_false, hge, Nat.add_sub_cancel_left]
      rw [List.getD_eq_getElem _ _ hi]
      exact List.getElem_indexOf hi

theorem decodeRunes_map_byteOf (cm : Charmap) (l : List Nat) (h : ∀ r ∈ l, cm.maps r) :
    cm.decodeRunes (l.map cm.byteOf) = l := by
  induction l with
  | nil => rfl
  | cons a l ih =>
    simp only [Charmap.decodeRunes, List.map_cons, List.map_map] at ih ⊢
    rw [decodeByte_byteOf cm a (h a (List.mem_cons_self _ _))]
    rw [ih (fun r hr => h r (List.mem_cons_of_mem _ hr))]

theorem EncodeRune_ascii (r : Nat) (h : r < RuneSelf) : EncodeRune r = [r] := by
  have : r ≤ 0x7F := by unfold RuneSelf at h; omega
  simp [EncodeRune, this]

/-- Re-encoding the rune of a multi-byte decode gives back the bytes consumed. -/
theorem EncodeRune_decode (s0 : Nat) (rest : List Nat) (h0 : ¬ s0 < RuneSelf)
    (h1 : ¬ (DecodeRuneInString (s0 :: rest)).2 = 1) :
    EncodeRune (DecodeRuneInString (s0 :: rest)).1 ++
      rest.drop ((DecodeRuneInString (s0 :: rest)).2 - 1) = s0 :: rest := by
  have hlo := acceptLo_ge s0
  have hhi := acceptHi_le s0
  rcases decode_multi s0 rest h0 h1 with ⟨s1, t, rfl, ha, hb, hc, hd, he⟩ |
    ⟨s1, s2, t, rfl, ha, hb, hc, hd, hc2, hd2, he⟩ |
    ⟨s1, s2, s3, t, rfl, ha, hb, hc, hd, hc2, hd2, hc3, hd3, he⟩
  · rw [he]
    have e1 : ¬ (s0 % 32 * 64 + s1 % 64 ≤ 0x7F) := by omega
    have e2 : s0 % 32 * 64 + s1 % 64 ≤ 0x7FF := by omega
    have e3 : 0xC0 + (s0 % 32 * 64 + s1 % 64) / 64 = s0 := by omega
    have e4 : 0x80 + (s0 % 32 * 64 + s1 % 64) % 64 = s1 := by omega
    simp only [EncodeRune, e1, e2, if_false, if_true, e3, e4]
    rfl
  · rw [he]
    have hlo2 : s0 = 0xE0 → 0xA0 ≤ s1 := by
      intro h; unfold acceptLo at hc; simp [h] at hc; exact hc
    have hhi2 : s0 = 0xED → s1 ≤ 0x9F := by
      intro h; unfold acceptHi at hd; simp [h] at hd; exact hd
    have e1 : ¬ (s0 % 16 * 4096 + s1 % 64 * 64 + s2 % 64 ≤ 0x7F) := by omega
    have e2 : ¬ (s0 % 16 * 4096 + s1 % 64 * 64 + s2 % 64 ≤ 0x7FF) := by omega
    have e3 : ¬ (s0 % 16 * 4096 + s1 % 64 * 64 + s2 % 64 > 0x10FFFF ∨
        (0xD800 ≤ s0 % 16 * 4096 + s1 % 64 * 64 + s2 % 64 ∧
          s0 % 16 * 4096 + s1 % 64 * 64 + s2 % 64 ≤ 0xDFFF)) := by omega
    have e4 : s0 % 16 * 4096 + s1 % 64 * 64 + s2 % 64 ≤ 0xFFFF := by omega
    have e5 : 0xE0 + (s0 % 16 * 4096 + s1 % 64 * 64 + s2 % 64) / 4096 = s0 := by omega
    have e6 : 0x80 + (s0 % 16 * 4096 + s1 % 64 * 64 + s2 % 64) / 64 % 64 = s1 := by omega
    have e7 : 0x80 + (s0 % 16 * 4096 + s1 % 64 * 64 + s2 % 64) % 64 = s2 := by omega
    simp only [EncodeRune, e1, e2, e3, e4, if_false, if_true, e5, e6, e7]
    rfl
  · rw [he]
    have hlo2 : s0 = 0xF0 → 0x90 ≤ s1 := by
      intro h; unfold acceptLo at hc; simp [h] at hc; exact hc
    have hhi2 : s0 = 0xF4 → s1 ≤ 0x8F := by
      intro h; unfold acceptHi at hd; simp [h] at hd; exact hd
    have e1 : ¬ (s0 % 8 * 262144 + s1 % 64 * 4096 + s2 % 64 * 64 + s3 % 64 ≤ 0x7F) := by omega
    have e2 : ¬ (s0 % 8 * 262144 + s1 % 64 * 4096 + s2 % 64 * 64 + s3 % 64 ≤ 0x7FF) := by
      omega
    have e3 : ¬ (s0 % 8 * 262144 + s1 % 64 * 4096 + s2 % 64 * 64 + s3 % 64 > 0x10FFFF ∨
        (0xD800 ≤ s0 % 8 * 262144 + s1 % 64 * 4096 + s2 % 64 * 64 + s3 % 64 ∧
          s0 % 8 * 262144 + s1 % 64 * 4096 + s2 % 64 * 64 + s3 % 64 ≤ 0xDFFF)) := by omega
    have e4 : ¬ (s0 % 8 * 262144 + s1 % 64 * 4096 + s2 % 64 * 64 + s3 % 64 ≤ 0xFFFF) := by
      omega
    have e5 : 0xF0 + (s0 % 8 * 262144 + s1 % 64 * 4096 + s2 % 64 * 64 + s3 % 64) / 262144
        = s0 := by omega
    have e6 : 0x80 + (s0 % 8 * 262144 + s1 % 64 * 4096 + s2 % 64 * 64 + s3 % 64) / 4096 % 64
        = s1 := by omega
    have e7 : 0x80 + (s0 % 8 * 262144 + s1 % 64 * 4096 + s2 % 64 * 64 + s3 % 64) / 64 % 64
        = s2 := by omega
    have e8 : 0x80 + (s0 % 8 * 262144 + s1 % 64 * 4096 + s2 % 64 * 64 + s3 % 64) % 64
        = s3 := by omega
    simp only [EncodeRune, e1, e2, e3, e4, if_false, if_true, e5, e6, e7, e8]
    rfl

/-- Re-encoding the characters of well-formed text gives the text back. -/
theorem flatten_rangeFrom :
    ∀ (s : List Nat) (k : Nat), validFrom k s = true →
      ((rangeFrom k s).map EncodeRune).flatten = s.drop k := by
  intro s
  induction s with
  | nil => intro k _; cases k <;> rfl
  | cons s0 rest ih =>
    intro k hv
    cases k with
    | succ k =>
      simp only [validFrom, rangeFrom, List.drop_succ_cons] at hv ⊢
      exact ih k hv
    | zero =>
      simp only [rangeFrom, List.map_cons, List.flatten_cons, List.drop_zero]
      by_cases h0 : s0 < RuneSelf
      · simp only [validFrom, h0, if_true] at hv
        rw [decode_ascii s0 rest h0]
        simp only [Nat.sub_self]
        rw [ih 0 hv, EncodeRune_ascii s0 h0]
        rfl
      · simp only [validFrom, h0, if_false] at hv
        split_ifs at hv with h1
        rw [ih _ hv]
        exact EncodeRune_decode s0 rest h0 h1

theorem decodeString_map_byteOf (cm : Charmap) (l : List Nat) (h : ∀ r ∈ l, cm.maps r) :
    cm.decodeString (l.map cm.byteOf) = (l.map EncodeRune).flatten := by
  induction l with
  | nil => rfl
  | cons a l ih =>
    simp only [Charmap.decodeString, List.map_cons, List.flatten_cons] at ih ⊢
    rw [decodeByte_byteOf cm a (h a (List.mem_cons_self _ _))]
    rw [ih (fun r hr => h r (List.mem_cons_of_mem _ hr))]

theorem decodeString_transcode (cm : Charmap) (text : List Nat) (hv : ValidString text = true)
    (hr : cm.representable text) : cm.decodeString (cm.transcode text) = text := by
  unfold Charmap.transcode
  rw [decodeString_map_byteOf cm _ hr]
  exact flatten_rangeFrom text 0 hv

theorem decodeRunes_transcode (cm : Charmap) (text : List Nat)
    (hr : cm.representable text) : cm.decodeRunes (cm.transcode text) = rangeString text :=
  decodeRunes_map_byteOf cm _ hr

/-! ## The claims -/

/-- C1: for every text made only of ASCII bytes (code points 0..127) and every
encoder state, whatever its current page, `EncodeText` returns exactly the
bytes of the text, unchanged and in the same order. -/
theorem EncodeText_ascii_unchanged (e : CharsetEncoder) (text : List Nat)
    (h : ∀ b ∈ text, b < 128) : (e.EncodeText text).1 = text := by
  unfold CharsetEncoder.EncodeText CharsetEncoder.smartEncode
  have hv : ValidString text = true := validFrom_ascii text h
  simp only [hv, Bool.true_eq_false, if_false]
  cases he : e.encoder with
  | some cm =>
    simp [CharsetEncoder.tryEncode, he, Charmap.String, transformFrom_ascii cm text h]
  | none =>
    simp only [CharsetEncoder.tryEncode, he]
    split_ifs with hne
    · rw [SetCharset_eq]
      simp [Charmap.String, transformFrom_ascii _ text h]
    · rfl

theorem EncodeText_ascii_unchanged_witness :
    (∀ b ∈ [0x48, 0x65, 0x6C, 0x6C, 0x6F], b < 128) ∧
      (NewCharsetEncoder.EncodeText [0x48, 0x65, 0x6C, 0x6C, 0x6F]).1
        = [0x48, 0x65, 0x6C, 0x6C, 0x6F] :=
  ⟨by decide, EncodeText_ascii_unchanged NewCharsetEncoder [0x48, 0x65, 0x6C, 0x6C, 0x6F]
    (by decide)⟩

/-- C2, as stated, fails: from a fresh encoder (page PC437) the well-formed
text "ãï" is representable under PC850, yet `EncodeText` returns its raw UTF-8
bytes, which are the transcoding under none of the four pages. -/
theorem EncodeText_drops_encodable_text :
    ValidString textAtildeIuml = true ∧
      Charmap.CodePage850.representable textAtildeIuml ∧
      (NewCharsetEncoder.EncodeText textAtildeIuml).1 = textAtildeIuml ∧
      (NewCharsetEncoder.EncodeText textAtildeIuml).1
        ≠ Charmap.CodePage437.transcode textAtildeIuml ∧
      (NewCharsetEncoder.EncodeText textAtildeIuml).1
        ≠ Charmap.CodePage850.transcode textAtildeIuml ∧
      (NewCharsetEncoder.EncodeText textAtildeIuml).1
        ≠ Charmap.CodePage860.transcode textAtildeIuml ∧
      (NewCharsetEncoder.EncodeText textAtildeIuml).1
        ≠ Charmap.CodePage858.transcode textAtildeIuml := by
  decide

/-- C2, amended: for every well-formed text and every starting page, if the
starting page or the page chosen by `detectBestCharset` has a mapping for every
character of the text, then `EncodeText` returns the transcoding of the text
under that page: under the starting page when it represents the text, and
otherwise under the classified page. -/
theorem EncodeText_transcodes_under_tried_page (p : Int) (text : List Nat)
    (hv : ValidString text = true)
    (h : (pageTable p).representable text ∨
      (pageTable (NewCharsetEncoder.detectBestCharset text)).representable text) :
    ((NewCharsetEncoder.SetCharset p).EncodeText text).1 =
      if (pageTable p).representable text then (pageTable p).transcode text
      else (pageTable (NewCharsetEncoder.detectBestCharset text)).transcode text := by
  have hb : (NewCharsetEncoder.SetCharset p).Bound := SetCharset_bound _ _
  have hc : (NewCharsetEncoder.SetCharset p).currentCharset = p := by rw [SetCharset_eq]
  by_cases hr : (pageTable p).representable text
  · rw [EncodeText_current hb text hv (by rw [hc]; exact hr), hc]
    simp [hr]
  · have hbest : (pageTable (NewCharsetEncoder.detectBestCharset text)).representable text :=
      h.resolve_left hr
    have hne : NewCharsetEncoder.detectBestCharset text ≠ p := by
      intro heq; rw [heq] at hbest; exact hr hbest
    rw [EncodeText_switch hb text hv (by rw [hc]; exact hr) (by rw [hc]; exact hne) hbest]
    simp only [hr, if_false]
    rfl

theorem EncodeText_transcodes_under_tried_page_witness :
    ValidString textAcao = true ∧
      ((pageTable 0).representable textAcao ∨
        (pageTable (NewCharsetEncoder.detectBestCharset textAcao)).representable textAcao) ∧
      ((NewCharsetEncoder.SetCharset 0).EncodeText textAcao).1 =
        if (pageTable 0).representable textAcao then (pageTable 0).transcode textAcao
        else (pageTable (NewCharsetEncoder.detectBestCharset textAcao)).transcode textAcao :=
  ⟨by decide, by decide,
    EncodeText_transcodes_under_tried_page 0 textAcao (by decide) (by decide)⟩

/-- C3: for every well-formed text that is representable under the encoder's
current page, `EncodeText` returns the transcoding under the current page and
leaves the encoder, and so its current page, as it was. -/
theorem EncodeText_representable_keeps_page (e : CharsetEncoder) (text : List Nat)
    (hb : e.Bound) (hv : ValidString text = true)
    (hr : (pageTable e.currentCharset).representable text) :
    (e.EncodeText text).1 = (pageTable e.currentCharset).transcode text ∧
      (e.EncodeText text).2 = e ∧
      (e.EncodeText text).2.currentCharset = e.currentCharset := by
  rw [EncodeText_current hb text hv hr]
  exact ⟨rfl, rfl, rfl⟩

theorem EncodeText_representable_keeps_page_witness :
    (NewCharsetEncoder.SetCharset 3).Bound ∧ ValidString textAcao = true ∧
      (pageTable (NewCharsetEncoder.SetCharset 3).currentCharset).representable textAcao ∧
      ((NewCharsetEncoder.SetCharset 3).EncodeText textAcao).1 = [0x61, 0x87, 0x84, 0x6F] ∧
      ((NewCharsetEncoder.SetCharset 3).EncodeText textAcao).2.currentCharset = 3 :=
  ⟨by decide, by decide, by decide,
    (EncodeText_representable_keeps_page (NewCharsetEncoder.SetCharset 3) textAcao
      (by decide) (by decide) (by decide)).1.trans (by decide),
    (EncodeText_representable_keeps_page (NewCharsetEncoder.SetCharset 3) textAcao
      (by decide) (by decide) (by decide)).2.2.trans (by decide)⟩

/-- C4: round-trip fidelity. For every well-formed text and every starting
page, whenever the text is representable under the starting page or under the
classified page, the encoder after `EncodeText` is bound to the table of its
current page, and decoding the returned bytes one byte at a time with that
table yields exactly the characters of the original text, and so, written back
as UTF-8, exactly its bytes. -/
theorem EncodeText_roundtrip (p : Int) (text : List Nat) (hv : ValidString text = true)
    (h : (pageTable p).representable text ∨
      (pageTable (NewCharsetEncoder.detectBestCharset text)).representable text) :
    ((NewCharsetEncoder.SetCharset p).EncodeText text).2.Bound ∧
      (pageTable ((NewCharsetEncoder.SetCharset p).EncodeText text).2.currentCharset).decodeRunes
        ((NewCharsetEncoder.SetCharset p).EncodeText text).1 = rangeString text ∧
      (pageTable ((NewCharsetEncoder.SetCharset p).EncodeText text).2.currentCharset).decodeString
        ((NewCharsetEncoder.SetCharset p).EncodeText text).1 = text := by
  have hb : (NewCharsetEncoder.SetCharset p).Bound := SetCharset_bound _ _
  have hc : (NewCharsetEncoder.SetCharset p).currentCharset = p := by rw [SetCharset_eq]
  by_cases hr : (pageTable p).representable text
  · rw [EncodeText_current hb text hv (by rw [hc]; exact hr), hc]
    exact ⟨hb, decodeRunes_transcode _ text hr, decodeString_transcode _ text hv hr⟩
  · have hbest : (pageTable (NewCharsetEncoder.detectBestCharset text)).representable text :=
      h.resolve_left hr
    have hne : NewCharsetEncoder.detectBestCharset text ≠ p := by
      intro heq; rw [heq] at hbest; exact hr hbest
    rw [EncodeText_switch hb text hv (by rw [hc]; exact hr) (by rw [hc]; exact hne) hbest]
    exact ⟨rfl, decodeRunes_transcode _ text hbest, decodeString_transcode _ text hv hbest⟩

theorem EncodeText_roundtrip_witness :
    ValidString textEuroPrice = true ∧
      ((pageTable 2).representable textEuroPrice ∨
        (pageTable (NewCharsetEncoder.detectBestCharset textEuroPrice)).representable
          textEuroPrice) ∧
      (pageTable ((NewCharsetEncoder.SetCharset 2).EncodeText textEuroPrice).2.currentCharset
        ).decodeString ((NewCharsetEncoder.SetCharset 2).EncodeText textEuroPrice).1
        = textEuroPrice :=
  ⟨by decide, by decide,
    (EncodeText_roundtrip 2 textEuroPrice (by decide) (by decide)).2.2⟩

/-- C5: rollback. For every input text, well-formed or not, and every encoder
state, when `EncodeTextWithAutoCharsetSwitching` is given a switcher whose
`SetCharacterCodeTableInternal` always returns an error, the current page after
the call equals the one before the call, and an encoder that was bound to the
table of its page is left exactly as it was. -/
theorem EncodeTextWithAutoCharsetSwitching_rollback {D : Type} (e : CharsetEncoder)
    (text : List Nat) (display : CharsetSwitcher D) (d : D)
    (hfail : ∀ (page : Int) (e1 : CharsetEncoder) (d1 : D),
      (display.SetCharacterCodeTableInternal page e1 d1).1 ≠ none) :
    (e.EncodeTextWithAutoCharsetSwitching text display d).enc.currentCharset
        = e.currentCharset ∧
      (e.Bound → (e.EncodeTextWithAutoCharsetSwitching text display d).enc = e) := by
  unfold CharsetEncoder.EncodeTextWithAutoCharsetSwitching
  split_ifs with hv
  · exact ⟨rfl, fun _ => rfl⟩
  · cases h1 : e.tryEncode text with
    | some encoded => exact ⟨rfl, fun _ => rfl⟩
    | none =>
      simp only
      split_ifs with hne
      · cases h2 : (e.SetCharset (e.detectBestCharset text)).tryEncode text with
        | none =>
          simp only [SetCharset_eq, true_and]
          exact fun hb => (bound_eq hb).symm
        | some encoded =>
          simp only
          have hf := hfail (e.detectBestCharset text) (e.SetCharset (e.detectBestCharset text)) d
          rcases hs : display.SetCharacterCodeTableInternal (e.detectBestCharset text)
              (e.SetCharset (e.detectBestCharset text)) d with ⟨err, e2, d2⟩
          rw [hs] at hf
          cases err with
          | none => exact absurd rfl hf
          | some msg =>
            simp only [SetCharset_eq, true_and]
            exact fun hb => (bound_eq hb).symm
      · exact ⟨rfl, fun _ => rfl⟩

theorem EncodeTextWithAutoCharsetSwitching_rollback_witness :
    (∀ (page : Int) (e1 : CharsetEncoder) (d1 : Unit),
        (failingSwitcher.SetCharacterCodeTableInternal page e1 d1).1 ≠ none) ∧
      (NewCharsetEncoder.EncodeTextWithAutoCharsetSwitching textAcao failingSwitcher ()).enc
        = NewCharsetEncoder :=
  ⟨fun _ _ _ => by simp [failingSwitcher],
    (EncodeTextWithAutoCharsetSwitching_rollback NewCharsetEncoder textAcao failingSwitcher ()
      (fun _ _ _ => by simp [failingSwitcher])).2 (by decide)⟩

/-- C6: for every well-formed text that is not representable under the current
page but is representable under the page `detectBestCharset` returns, that page
being different from the current one, `EncodeText` returns the transcoding
under the classified page and leaves the encoder on that page. -/
theorem EncodeText_adopts_classified_page (e : CharsetEncoder) (text : List Nat)
    (hb : e.Bound) (hv : ValidString text = true)
    (hr : ¬ (pageTable e.currentCharset).representable text)
    (hne : e.detectBestCharset text ≠ e.currentCharset)
    (hbest : (pageTable (e.detectBestCharset text)).representable text) :
    (e.EncodeText text).1 = (pageTable (e.detectBestCharset text)).transcode text ∧
      (e.EncodeText text).2.currentCharset = e.detectBestCharset text ∧
      (e.EncodeText text).2.Bound := by
  rw [EncodeText_switch hb text hv hr hne hbest]
  exact ⟨rfl, rfl, rfl⟩

theorem EncodeText_adopts_classified_page_witness :
    (NewCharsetEncoder.currentCharset = chartablePC437 ∧
      (NewCharsetEncoder.EncodeText textAcao).1 = Charmap.CodePage860.transcode textAcao ∧
      (NewCharsetEncoder.EncodeText textAcao).1 = [0x61, 0x87, 0x84, 0x6F] ∧
      (NewCharsetEncoder.EncodeText textAcao).2.currentCharset = chartablePC860) ∧
    ((NewCharsetEncoder.EncodeText textEuroPrice).1
        = Charmap.CodePage858.transcode textEuroPrice ∧
      (NewCharsetEncoder.EncodeText textEuroPrice).1 = [0xD5, 0x31, 0x39, 0x2E, 0x39, 0x39] ∧
      (NewCharsetEncoder.EncodeText textEuroPrice).2.currentCharset = chartablePC858) :=
  ⟨⟨rfl,
    (EncodeText_adopts_classified_page NewCharsetEncoder textAcao (by decide) (by decide)
      (by decide) (by decide) (by decide)).1.trans (by decide),
    (EncodeText_adopts_classified_page NewCharsetEncoder textAcao (by decide) (by decide)
      (by decide) (by decide) (by decide)).1.trans (by decide),
    (EncodeText_adopts_classified_page NewCharsetEncoder textAcao (by decide) (by decide)
      (by decide) (by decide) (by decide)).2.1.trans (by decide)⟩,
   ⟨(EncodeText_adopts_classified_page NewCharsetEncoder textEuroPrice (by decide) (by decide)
      (by decide) (by decide) (by decide)).1.trans (by decide),
    (EncodeText_adopts_classified_page NewCharsetEncoder textEuroPrice (by decide) (by decide)
      (by decide) (by decide) (by decide)).1.trans (by decide),
    (EncodeText_adopts_classified_page NewCharsetEncoder textEuroPrice (by decide) (by decide)
      (by decide) (by decide) (by decide)).2.1.trans (by decide)⟩⟩

/-- C7, as stated, fails: from a fresh encoder `EncodeText` on "café" does
not finish on PC850. -/
theorem EncodeText_cafe_not_on_PC850 :
    ¬ ((NewCharsetEncoder.EncodeText textCafe).1 = Charmap.CodePage850.transcode textCafe ∧
      (NewCharsetEncoder.EncodeText textCafe).2.currentCharset = chartablePC850) := by
  decide

/-- C7, amended: from a fresh encoder (current page PC437) `EncodeText` on
"café" does not switch pages. The letter é (U+00E9) has a mapping in PC437, so
the call returns "café" transcoded under PC437, the bytes 63 61 66 82, which
are also its PC850 single-byte form, and the encoder is left as it was, on
PC437. -/
theorem EncodeText_cafe_stays_on_PC437 :
    NewCharsetEncoder.currentCharset = chartablePC437 ∧
      Charmap.CodePage437.maps 0xE9 ∧
      (NewCharsetEncoder.EncodeText textCafe).1 = [0x63, 0x61, 0x66, 0x82] ∧
      Charmap.CodePage437.transcode textCafe = [0x63, 0x61, 0x66, 0x82] ∧
      Charmap.CodePage850.transcode textCafe = [0x63, 0x61, 0x66, 0x82] ∧
      (NewCharsetEncoder.EncodeText textCafe).2 = NewCharsetEncoder ∧
      (NewCharsetEncoder.EncodeText textCafe).2.currentCharset = chartablePC437 := by
  decide

/-- No page has a mapping for a CJK unified ideograph (U+4E00..U+9FFF). -/
theorem cjk_not_mapped (cm : Charmap) (r : Nat) (h1 : 0x4E00 ≤ r) (h2 : r ≤ 0x9FFF) :
    ¬ cm.maps r := by
  intro h
  rcases h with h | h
  · omega
  · cases cm <;>
      simp only [Charmap.high, codePage437High, codePage850High, codePage860High,
        codePage858High, List.mem_cons, List.mem_singleton, List.not_mem_nil, or_false] at h <;>
      omega

theorem cjk_not_representable (cm : Charmap) (text : List Nat)
    (h : ∃ r ∈ rangeString text, 0x4E00 ≤ r ∧ r ≤ 0x9FFF) : ¬ cm.representable text := by
  obtain ⟨r, hr, h1, h2⟩ := h
  intro hrep
  exact cjk_not_mapped cm r h1 h2 (hrep r hr)

/-- C8: for every well-formed text that is representable neither under the
current page nor under the page `detectBestCharset` returns, and so for every
well-formed text that contains a CJK ideograph, `EncodeText` returns the
original text as raw bytes, byte for byte, and leaves the encoder, and so its
current page, as it was before the call. -/
theorem EncodeText_unrepresentable_falls_back (e : CharsetEncoder) (text : List Nat)
    (hb : e.Bound) (hv : ValidString text = true)
    (h : (¬ (pageTable e.currentCharset).representable text ∧
        ¬ (pageTable (e.detectBestCharset text)).representable text) ∨
      ∃ r ∈ rangeString text, 0x4E00 ≤ r ∧ r ≤ 0x9FFF) :
    (e.EncodeText text).1 = text ∧ (e.EncodeText text).2 = e ∧
      (e.EncodeText text).2.currentCharset = e.currentCharset := by
  have hboth : ¬ (pageTable e.currentCharset).representable text ∧
      ¬ (pageTable (e.detectBestCharset text)).representable text := by
    rcases h with h | h
    · exact h
    · exact ⟨cjk_not_representable _ text h, cjk_not_representable _ text h⟩
  rw [EncodeText_fallback hb text hv hboth.1 hboth.2]
  exact ⟨rfl, rfl, rfl⟩

theorem EncodeText_unrepresentable_falls_back_witness :
    ((NewCharsetEncoder.SetCharset 2).Bound ∧ ValidString textCJK = true ∧
      ¬ (pageTable (NewCharsetEncoder.SetCharset 2).currentCharset).representable textCJK ∧
      ¬ (pageTable ((NewCharsetEncoder.SetCharset 2).detectBestCharset textCJK)).representable
        textCJK ∧
      ∃ r ∈ rangeString textCJK, 0x4E00 ≤ r ∧ r ≤ 0x9FFF) ∧
      ((NewCharsetEncoder.SetCharset 2).EncodeText textCJK).1 = textCJK ∧
      ((NewCharsetEncoder.SetCharset 2).EncodeText textCJK).2 = NewCharsetEncoder.SetCharset 2 ∧
      ((NewCharsetEncoder.SetCharset 2).EncodeText textCJK).2.currentCharset
        = (NewCharsetEncoder.SetCharset 2).currentCharset :=
  ⟨⟨by decide, by decide, by decide, by decide, 0x4E2D, by decide, by decide⟩,
    EncodeText_unrepresentable_falls_back (NewCharsetEncoder.SetCharset 2) textCJK (by decide)
      (by decide) (Or.inl ⟨by decide, by decide⟩)⟩

/-- C9: for every input that is not well-formed UTF-8, `EncodeText` and
`EncodeTextWithAutoCharsetSwitching` both return the input bytes unchanged and
leave the encoder unchanged; the second one never calls the switcher, leaves
the device as it was and returns a nil error. -/
theorem malformed_text_passes_through {D : Type} (e : CharsetEncoder) (text : List Nat)
    (display : CharsetSwitcher D) (d : D) (hv : ValidString text = false) :
    (e.EncodeText text).1 = text ∧ (e.EncodeText text).2 = e ∧
      (e.EncodeTextWithAutoCharsetSwitching text display d).bytes = text ∧
      (e.EncodeTextWithAutoCharsetSwitching text display d).enc = e ∧
      (e.EncodeTextWithAutoCharsetSwitching text display d).calls = [] ∧
      (e.EncodeTextWithAutoCharsetSwitching text display d).dev = d ∧
      (e.EncodeTextWithAutoCharsetSwitching text display d).err = none := by
  unfold CharsetEncoder.EncodeText CharsetEncoder.EncodeTextWithAutoCharsetSwitching
  simp [hv]

theorem malformed_text_passes_through_witness :
    ValidString [0x63, 0x61, 0x66, 0x82] = false ∧
      (NewCharsetEncoder.EncodeText [0x63, 0x61, 0x66, 0x82]).1 = [0x63, 0x61, 0x66, 0x82] ∧
      (NewCharsetEncoder.EncodeText [0x63, 0x61, 0x66, 0x82]).2 = NewCharsetEncoder ∧
      (NewCharsetEncoder.EncodeTextWithAutoCharsetSwitching [0x63, 0x61, 0x66, 0x82]
        failingSwitcher ()).bytes = [0x63, 0x61, 0x66, 0x82] ∧
      (NewCharsetEncoder.EncodeTextWithAutoCharsetSwitching [0x63, 0x61, 0x66, 0x82]
        failingSwitcher ()).enc = NewCharsetEncoder ∧
      (NewCharsetEncoder.EncodeTextWithAutoCharsetSwitching [0x63, 0x61, 0x66, 0x82]
        failingSwitcher ()).calls = [] ∧
      (NewCharsetEncoder.EncodeTextWithAutoCharsetSwitching [0x63, 0x61, 0x66, 0x82]
        failingSwitcher ()).dev = () ∧
      (NewCharsetEncoder.EncodeTextWithAutoCharsetSwitching [0x63, 0x61, 0x66, 0x82]
        failingSwitcher ()).err = none :=
  ⟨by decide,
    malformed_text_passes_through NewCharsetEncoder [0x63, 0x61, 0x66, 0x82] failingSwitcher ()
      (by decide)⟩

/-- C10: for every text that contains at least one of the characters ã, õ, ç,
Ã, Õ, Ç, `detectBestCharset` returns the Portuguese page PC860, which is 3,
whatever other characters the text contains. -/
theorem detectBestCharset_portuguese (e : CharsetEncoder) (text : List Nat)
    (h : ∃ r ∈ rangeString text, r ∈ [0xE3, 0xF5, 0xE7, 0xC3, 0xD5, 0xC7]) :
    e.detectBestCharset text = chartablePC860 ∧ e.detectBestCharset text = 3 := by
  have hf := foldl_portuguese (rangeString text) ⟨false, false, false⟩ h
  have hd : e.detectBestCharset text = chartablePC860 := by
    unfold CharsetEncoder.detectBestCharset
    simp only [hf, if_true]
  exact ⟨hd, hd.trans rfl⟩

theorem detectBestCharset_portuguese_witness :
    (∃ r ∈ rangeString [0xE2, 0x82, 0xAC, 0xC3, 0xA9, 0xE4, 0xB8, 0xAD, 0xC3, 0x95, 0x41],
        r ∈ [0xE3, 0xF5, 0xE7, 0xC3, 0xD5, 0xC7]) ∧
      NewCharsetEncoder.detectBestCharset
        [0xE2, 0x82, 0xAC, 0xC3, 0xA9, 0xE4, 0xB8, 0xAD, 0xC3, 0x95, 0x41] = 3 :=
  ⟨⟨0xD5, by decide, by decide⟩,
    (detectBestCharset_portuguese NewCharsetEncoder
      [0xE2, 0x82, 0xAC, 0xC3, 0xA9, 0xE4, 0xB8, 0xAD, 0xC3, 0x95, 0x41]
      ⟨0xD5, by decide, by decide⟩).2⟩

/-! ## The flags of the classifier -/

theorem detectStep_hasPortuguese (f : DetectFlags) (r : Nat) :
    (detectStep f r).hasPortuguese = true ↔
      f.hasPortuguese = true ∨ r ∈ portugueseMarkers := by
  simp only [portugueseMarkers, List.mem_cons, List.mem_singleton, List.not_mem_nil, or_false]
  unfold detectStep
  split_ifs with h1 h2 h3 h4
  · subst h2; simp
  · simp [h4]
  · simp [h4]
  · have : ¬ (r = 0xE3 ∨ r = 0xF5 ∨ r = 0xE7 ∨ r = 0xC3 ∨ r = 0xD5 ∨ r = 0xC7) := by omega
    simp [this]
  · have : ¬ (r = 0xE3 ∨ r = 0xF5 ∨ r = 0xE7 ∨ r = 0xC3 ∨ r = 0xD5 ∨ r = 0xC7) := by omega
    simp [this]

theorem detectStep_hasEuro (f : DetectFlags) (r : Nat) :
    (detectStep f r).hasEuro = true ↔ f.hasEuro = true ∨ r = 0x20AC := by
  unfold detectStep
  split_ifs with h1 h2 h3 h4
  · simp [h2]
  · simp [h2]
  · simp [h2]
  · simp [h2]
  · have : ¬ r = 0x20AC := by omega
    simp [this]

theorem detectStep_hasLatin (f : DetectFlags) (r : Nat) :
    (detectStep f r).hasLatin = true ↔ f.hasLatin = true ∨ (0xC0 ≤ r ∧ r ≤ 0xFF) := by
  unfold detectStep
  split_ifs with h1 h2 h3 h4
  · have : ¬ (0xC0 ≤ r ∧ r ≤ 0xFF) := by omega
    simp [this]
  · have : 0xC0 ≤ r ∧ r ≤ 0xFF := h3
    simp [this]
  · have : 0xC0 ≤ r ∧ r ≤ 0xFF := h3
    simp [this]
  · have : ¬ (0xC0 ≤ r ∧ r ≤ 0xFF) := h3
    simp [this]
  · have : ¬ (0xC0 ≤ r ∧ r ≤ 0xFF) := by omega
    simp [this]

theorem foldl_hasPortuguese (l : List Nat) :
    ∀ f : DetectFlags, (l.foldl detectStep f).hasPortuguese = true ↔
      f.hasPortuguese = true ∨ ∃ r ∈ l, r ∈ portugueseMarkers := by
  induction l with
  | nil => intro f; simp
  | cons a l ih =>
    intro f
    rw [List.foldl_cons, ih, detectStep_hasPortuguese]
    simp only [List.mem_cons, exists_eq_or_imp]
    tauto

theorem foldl_hasEuro (l : List Nat) :
    ∀ f : DetectFlags, (l.foldl detectStep f).hasEuro = true ↔
      f.hasEuro = true ∨ 0x20AC ∈ l := by
  induction l with
  | nil => intro f; simp
  | cons a l ih =>
    intro f
    rw [List.foldl_cons, ih, detectStep_hasEuro]
    simp only [List.mem_cons]
    constructor
    · rintro ((h | h) | h)
      · exact Or.inl h
      · exact Or.inr (Or.inl h.symm)
      · exact Or.inr (Or.inr h)
    · rintro (h | h | h)
      · exact Or.inl (Or.inl h)
      · exact Or.inl (Or.inr h.symm)
      · exact Or.inr h

theorem foldl_hasLatin (l : List Nat) :
    ∀ f : DetectFlags, (l.foldl detectStep f).hasLatin = true ↔
      f.hasLatin = true ∨ ∃ r ∈ l, 0xC0 ≤ r ∧ r ≤ 0xFF := by
  induction l with
  | nil => intro f; simp
  | cons a l ih =>
    intro f
    rw [List.foldl_cons, ih, detectStep_hasLatin]
    simp only [List.mem_cons, exists_eq_or_imp]
    tauto

/-- The decision of `detectBestCharset` in terms of the characters present. -/
theorem detectBestCharset_eq (e : CharsetEncoder) (text : List Nat) :
    e.detectBestCharset text =
      if ∃ r ∈ rangeString text, r ∈ portugueseMarkers then chartablePC860
      else if 0x20AC ∈ rangeString text then chartablePC858
      else if ∃ r ∈ rangeString text, 0xC0 ≤ r ∧ r ≤ 0xFF then chartablePC850
      else chartablePC437 := by
  unfold CharsetEncoder.detectBestCharset
  have hp := foldl_hasPortuguese (rangeString text) ⟨false, false, false⟩
  have he := foldl_hasEuro (rangeString text) ⟨false, false, false⟩
  have hl := foldl_hasLatin (rangeString text) ⟨false, false, false⟩
  simp only [Bool.false_eq_true, false_or] at hp he hl
  simp only [hp, he, hl]

theorem detect_conditions_filter (l : List Nat) :
    ((∃ r ∈ l, r ∈ portugueseMarkers) ↔
        ∃ r ∈ l.filter (fun r => decide (127 < r)), r ∈ portugueseMarkers) ∧
      (0x20AC ∈ l ↔ 0x20AC ∈ l.filter (fun r => decide (127 < r))) ∧
      ((∃ r ∈ l, 0xC0 ≤ r ∧ r ≤ 0xFF) ↔
        ∃ r ∈ l.filter (fun r => decide (127 < r)), 0xC0 ≤ r ∧ r ≤ 0xFF) := by
  simp only [List.mem_filter, decide_eq_true_eq, portugueseMarkers, List.mem_cons,
    List.mem_singleton, List.not_mem_nil, or_false]
  refine ⟨⟨?_, ?_⟩, ⟨?_, ?_⟩, ⟨?_, ?_⟩⟩
  · rintro ⟨r, hr, hp⟩; exact ⟨r, ⟨hr, by omega⟩, hp⟩
  · rintro ⟨r, ⟨hr, _⟩, hp⟩; exact ⟨r, hr, hp⟩
  · intro h; exact ⟨h, by omega⟩
  · intro h; exact h.1
  · rintro ⟨r, hr, hp⟩; exact ⟨r, ⟨hr, by omega⟩, hp⟩
  · rintro ⟨r, ⟨hr, _⟩, hp⟩; exact ⟨r, hr, hp⟩

/-- C11: for every text that contains the Euro sign U+20AC and none of ã, õ,
ç, Ã, Õ, Ç, `detectBestCharset` returns the Euro page PC858, which is 19,
whatever other characters, accented Latin-1 letters included, are present. -/
theorem detectBestCharset_euro (e : CharsetEncoder) (text : List Nat)
    (h1 : 0x20AC ∈ rangeString text)
    (h2 : ∀ r ∈ rangeString text, r ∉ portugueseMarkers) :
    e.detectBestCharset text = chartablePC858 ∧ e.detectBestCharset text = 19 := by
  have hp : ¬ ∃ r ∈ rangeString text, r ∈ portugueseMarkers := by
    rintro ⟨r, hr, hm⟩; exact h2 r hr hm
  have hd : e.detectBestCharset text = chartablePC858 := by
    rw [detectBestCharset_eq]
    simp only [hp, if_false, h1, if_true]
  exact ⟨hd, hd.trans rfl⟩

theorem detectBestCharset_euro_witness :
    (0x20AC ∈ rangeString [0xC3, 0xA9, 0x20, 0xE2, 0x82, 0xAC, 0x35] ∧
      ∀ r ∈ rangeString [0xC3, 0xA9, 0x20, 0xE2, 0x82, 0xAC, 0x35], r ∉ portugueseMarkers) ∧
      NewCharsetEncoder.detectBestCharset [0xC3, 0xA9, 0x20, 0xE2, 0x82, 0xAC, 0x35] = 19 :=
  ⟨⟨by decide, by decide⟩,
    (detectBestCharset_euro NewCharsetEncoder [0xC3, 0xA9, 0x20, 0xE2, 0x82, 0xAC, 0x35]
      (by decide) (by decide)).2⟩

/-- C12: for every text that contains at least one character in
U+00C0..U+00FF, no Euro sign and none of ã, õ, ç, Ã, Õ, Ç, `detectBestCharset`
returns the multilingual page PC850, which is 2. -/
theorem detectBestCharset_latin (e : CharsetEncoder) (text : List Nat)
    (h1 : ∃ r ∈ rangeString text, 0xC0 ≤ r ∧ r ≤ 0xFF)
    (h2 : 0x20AC ∉ rangeString text)
    (h3 : ∀ r ∈ rangeString text, r ∉ portugueseMarkers) :
    e.detectBestCharset text = chartablePC850 ∧ e.detectBestCharset text = 2 := by
  have hp : ¬ ∃ r ∈ rangeString text, r ∈ portugueseMarkers := by
    rintro ⟨r, hr, hm⟩; exact h3 r hr hm
  have hd : e.detectBestCharset text = chartablePC850 := by
    rw [detectBestCharset_eq]
    simp only [hp, if_false, h2, h1, if_true]
  exact ⟨hd, hd.trans rfl⟩

theorem detectBestCharset_latin_witness :
    ((∃ r ∈ rangeString textCafe, 0xC0 ≤ r ∧ r ≤ 0xFF) ∧ 0x20AC ∉ rangeString textCafe ∧
      ∀ r ∈ rangeString textCafe, r ∉ portugueseMarkers) ∧
      NewCharsetEncoder.detectBestCharset textCafe = 2 :=
  ⟨⟨⟨0xE9, by decide, by decide, by decide⟩, by decide, by decide⟩,
    (detectBestCharset_latin NewCharsetEncoder textCafe ⟨0xE9, by decide, by decide, by decide⟩
      (by decide) (by decide)).2⟩

/-- C13: `detectBestCharset` is a total function whose result is always one
of the four pages 0 (PC437), 2 (PC850), 3 (PC860), 19 (PC858). It returns PC437
exactly when the text contains no Euro sign and no character in
U+00C0..U+00FF. ASCII characters never influence the result: two texts with
the same non-ASCII characters, in the same order, get the same page. -/
theorem detectBestCharset_total (e : CharsetEncoder) (s t : List Nat)
    (h : (rangeString s).filter (fun r => decide (127 < r)) =
      (rangeString t).filter (fun r => decide (127 < r))) :
    e.detectBestCharset s ∈ [0, 2, 3, 19] ∧
      (e.detectBestCharset s = chartablePC437 ↔
        0x20AC ∉ rangeString s ∧ ∀ r ∈ rangeString s, ¬ (0xC0 ≤ r ∧ r ≤ 0xFF)) ∧
      e.detectBestCharset s = e.detectBestCharset t := by
  refine ⟨?_, ?_, ?_⟩
  · rw [detectBestCharset_eq]
    split_ifs <;> decide
  · rw [detectBestCharset_eq]
    by_cases hp : ∃ r ∈ rangeString s, r ∈ portugueseMarkers
    · have hl : ∃ r ∈ rangeString s, 0xC0 ≤ r ∧ r ≤ 0xFF := by
        obtain ⟨r, hr, hm⟩ := hp
        simp only [portugueseMarkers, List.mem_cons, List.mem_singleton, List.not_mem_nil,
          or_false] at hm
        exact ⟨r, hr, by omega⟩
      simp only [hp, if_true]
      constructor
      · intro h0; exact absurd h0 (by decide)
      · rintro ⟨_, hn⟩
        obtain ⟨r, hr, hb⟩ := hl
        exact absurd hb (hn r hr)
    · simp only [hp, if_false]
      by_cases he : 0x20AC ∈ rangeString s
      · simp only [he, if_true, not_true_eq_false, false_and, iff_false]
        decide
      · simp only [he, if_false, not_false_eq_true, true_and]
        by_cases hl : ∃ r ∈ rangeString s, 0xC0 ≤ r ∧ r ≤ 0xFF
        · simp only [hl, if_true]
          constructor
          · intro h0; exact absurd h0 (by decide)
          · intro hn
            obtain ⟨r, hr, hb⟩ := hl
            exact absurd hb (hn r hr)
        · simp only [hl, if_false, true_iff]
          intro r hr hb
          exact hl ⟨r, hr, hb⟩
  · rw [detectBestCharset_eq e s, detectBestCharset_eq e t]
    obtain ⟨a1, a2, a3⟩ := detect_conditions_filter (rangeString s)
    obtain ⟨b1, b2, b3⟩ := detect_conditions_filter (rangeString t)
    rw [h] at a1 a2 a3
    have c1 := a1.trans b1.symm
    have c2 := a2.trans b2.symm
    have c3 := a3.trans b3.symm
    simp only [c1, c2, c3]

theorem detectBestCharset_total_witness :
    ((rangeString [0x61, 0xE4, 0xB8, 0xAD, 0x62]).filter (fun r => decide (127 < r)) =
        (rangeString textCJK).filter (fun r => decide (127 < r))) ∧
      NewCharsetEncoder.detectBestCharset [0x61, 0xE4, 0xB8, 0xAD, 0x62] ∈ [0, 2, 3, 19] ∧
      NewCharsetEncoder.detectBestCharset [0x61, 0xE4, 0xB8, 0xAD, 0x62] = chartablePC437 ∧
      NewCharsetEncoder.detectBestCharset [0x61, 0xE4, 0xB8, 0xAD, 0x62]
        = NewCharsetEncoder.detectBestCharset textCJK :=
  ⟨by decide,
    (detectBestCharset_total NewCharsetEncoder [0x61, 0xE4, 0xB8, 0xAD, 0x62] textCJK
      (by decide)).1,
    (detectBestCharset_total NewCharsetEncoder [0x61, 0xE4, 0xB8, 0xAD, 0x62] textCJK
      (by decide)).2.1.mpr (by decide),
    (detectBestCharset_total NewCharsetEncoder [0x61, 0xE4, 0xB8, 0xAD, 0x62] textCJK
      (by decide)).2.2⟩

/-! ## The outcomes of `EncodeTextWithAutoCharsetSwitching` -/

theorem sync_current {D : Type} {e : CharsetEncoder} (hb : e.Bound) (text : List Nat)
    (display : CharsetSwitcher D) (d : D) (hv : ValidString text = true)
    (hr : (pageTable e.currentCharset).representable text) :
    e.EncodeTextWithAutoCharsetSwitching text display d =
      ⟨(pageTable e.currentCharset).transcode text, none, e, d, []⟩ := by
  unfold CharsetEncoder.EncodeTextWithAutoCharsetSwitching
  rw [tryEncode_bound hb, String_of_representable _ text hv hr]
  simp [hv]

theorem sync_fallback {D : Type} {e : CharsetEncoder} (hb : e.Bound) (text : List Nat)
    (display : CharsetSwitcher D) (d : D) (hv : ValidString text = true)
    (hr : ¬ (pageTable e.currentCharset).representable text)
    (hbest : e.detectBestCharset text = e.currentCharset ∨
      ¬ (pageTable (e.detectBestCharset text)).representable text) :
    e.EncodeTextWithAutoCharsetSwitching text display d = ⟨text, none, e, d, []⟩ := by
  unfold CharsetEncoder.EncodeTextWithAutoCharsetSwitching
  rw [tryEncode_bound hb, String_none_of_not_representable _ text hv hr]
  simp only [hv, Bool.true_eq_false, if_false, ne_eq]
  split_ifs with hne
  · rfl
  · have hnot : ¬ (pageTable (e.detectBestCharset text)).representable text :=
      hbest.resolve_left hne
    rw [tryEncode_bound (SetCharset_bound _ _), SetCharset_eq]
    simp only
    rw [String_none_of_not_representable _ text hv hnot]
    simp only [SetCharset_eq]
    rw [← bound_eq hb]

theorem sync_switch {D : Type} {e : CharsetEncoder} (hb : e.Bound) (text : List Nat)
    (display : CharsetSwitcher D) (d : D) (hv : ValidString text = true)
    (hr : ¬ (pageTable e.currentCharset).representable text)
    (hne : e.detectBestCharset text ≠ e.currentCharset)
    (hbest : (pageTable (e.detectBestCharset text)).representable text) :
    e.EncodeTextWithAutoCharsetSwitching text display d =
      match display.SetCharacterCodeTableInternal (e.detectBestCharset text)
          (e.SetCharset (e.detectBestCharset text)) d with
      | (some _, _, d2) => ⟨text, none, e, d2, [e.detectBestCharset text]⟩
      | (none, e2, d2) =>
        ⟨(pageTable (e.detectBestCharset text)).transcode text, none, e2, d2,
          [e.detectBestCharset text]⟩ := by
  unfold CharsetEncoder.EncodeTextWithAutoCharsetSwitching
  rw [tryEncode_bound hb, String_none_of_not_representable _ text hv hr]
  simp only [hv, Bool.true_eq_false, if_false, ne_eq, hne, not_false_eq_true, if_true]
  rw [tryEncode_bound (SetCharset_bound _ _)]
  have hc : (e.SetCharset (e.detectBestCharset text)).currentCharset = e.detectBestCharset text := by
    rw [SetCharset_eq]
  rw [hc, String_of_representable _ text hv hbest]
  simp only
  rcases display.SetCharacterCodeTableInternal (e.detectBestCharset text)
      (e.SetCharset (e.detectBestCharset text)) d with ⟨err, e2, d2⟩
  cases err with
  | none => rfl
  | some msg =>
    simp only [SetCharset_eq]
    rw [← bound_eq hb]

/-! ## The display as a switcher -/

theorem toByte_of_range (page : Int) (h : ¬ (page < 0 ∨ page > 255)) :
    ((toByte page : Nat) : Int) = page := by
  unfold toByte
  have h1 : 0 ≤ page := by omega
  have h2 : page % 256 = page := Int.emod_eq_of_lt h1 (by omega)
  rw [h2, Int.toNat_of_nonneg h1]

theorem displaySwitcher_onlySets : displaySwitcher.OnlySetsRequestedPage := by
  intro page e d
  simp only [displaySwitcher, Display.SetCharacterCodeTableInternal]
  cases d.protocol with
  | none => exact Or.inl rfl
  | some protocol =>
    simp only
    by_cases h1 : page < 0 ∨ page > 255
    · simp [h1]
    · simp only [h1, if_false]
      cases protocol.SetCharset page with
      | none => exact Or.inl rfl
      | some cmd =>
        simp only
        by_cases h2 : d.encoder.isSome = true
        · simp [h2]
        · simp [h2]

theorem displaySwitcher_drives (powerOn : Int) :
    displaySwitcher.DrivesRegister (Display.devicePage powerOn) := by
  intro page e d
  simp only [displaySwitcher, Display.SetCharacterCodeTableInternal]
  cases hp : d.protocol with
  | none => simp
  | some protocol =>
    simp only
    by_cases h1 : page < 0 ∨ page > 255
    · simp [h1]
    · simp only [Protocol.SetCharset, h1, if_false]
      unfold Display.writeBytes
      cases hport : d.port with
      | none => simp [Display.devicePage, hport]
      | some p =>
        simp only [Display.devicePage, hport]
        unfold Port.Write
        rcases hs : p.script with _ | ⟨b, rest⟩
        · simp only [true_implies, ne_eq, not_true_eq_false, false_implies, and_true,
            List.foldl_append, List.foldl_cons, List.foldl_nil]
          simp only [BuildSetCharsetSeq, CmdEscape, CmdEscCharsetTable, deviceStep]
          exact toByte_of_range page h1
        · cases b with
          | false => simp
          | true =>
            simp only [true_implies, ne_eq, not_true_eq_false, false_implies, and_true,
              List.foldl_append, List.foldl_cons, List.foldl_nil]
            simp only [BuildSetCharsetSeq, CmdEscape, CmdEscCharsetTable, deviceStep]
            exact toByte_of_range page h1

/-- C14: for every well-formed text that is not representable under the
current page but is representable under the classified page, that page being
different from the current one, when `SetCharacterCodeTableInternal` succeeds
on a switcher that leaves the encoder alone or sets it to the page asked for,
`EncodeTextWithAutoCharsetSwitching` returns the transcoding under the
classified page with a nil error, the encoder is on the classified page and
bound to its table, and the switcher was called once, with that page. -/
theorem EncodeTextWithAutoCharsetSwitching_switch_succeeds {D : Type} (e : CharsetEncoder)
    (text : List Nat) (display : CharsetSwitcher D) (d : D) (hb : e.Bound)
    (hv : ValidString text = true)
    (hr : ¬ (pageTable e.currentCharset).representable text)
    (hne : e.detectBestCharset text ≠ e.currentCharset)
    (hbest : (pageTable (e.detectBestCharset text)).representable text)
    (hk : display.OnlySetsRequestedPage)
    (hs : (display.SetCharacterCodeTableInternal (e.detectBestCharset text)
      (e.SetCharset (e.detectBestCharset text)) d).1 = none) :
    (e.EncodeTextWithAutoCharsetSwitching text display d).bytes
        = (pageTable (e.detectBestCharset text)).transcode text ∧
      (e.EncodeTextWithAutoCharsetSwitching text display d).err = none ∧
      (e.EncodeTextWithAutoCharsetSwitching text display d).enc.currentCharset
        = e.detectBestCharset text ∧
      (e.EncodeTextWithAutoCharsetSwitching text display d).enc.Bound ∧
      (e.EncodeTextWithAutoCharsetSwitching text display d).calls = [e.detectBestCharset text] ∧
      (e.EncodeTextWithAutoCharsetSwitching text display d).dev
        = (display.SetCharacterCodeTableInternal (e.detectBestCharset text)
            (e.SetCharset (e.detectBestCharset text)) d).2.2 := by
  rw [sync_switch hb text display d hv hr hne hbest]
  have hk2 := hk (e.detectBestCharset text) (e.SetCharset (e.detectBestCharset text)) d
  rcases hcall : display.SetCharacterCodeTableInternal (e.detectBestCharset text)
      (e.SetCharset (e.detectBestCharset text)) d with ⟨err, e2, d2⟩
  rw [hcall] at hs hk2
  simp only at hs hk2
  subst hs
  have he2 : e2 = e.SetCharset (e.detectBestCharset text) := by
    rcases hk2 with h | h
    · exact h
    · rw [h]; simp only [SetCharset_eq]
  subst he2
  refine ⟨rfl, rfl, ?_, SetCharset_bound _ _, rfl, rfl⟩
  simp only [SetCharset_eq]

theorem EncodeTextWithAutoCharsetSwitching_switch_succeeds_witness :
    ((NewCharsetEncoder.EncodeTextWithAutoCharsetSwitching textAcao displaySwitcher
        (openDisplay [])).bytes = [0x61, 0x87, 0x84, 0x6F] ∧
      (NewCharsetEncoder.EncodeTextWithAutoCharsetSwitching textAcao displaySwitcher
        (openDisplay [])).err = none ∧
      (NewCharsetEncoder.EncodeTextWithAutoCharsetSwitching textAcao displaySwitcher
        (openDisplay [])).enc.currentCharset = 3 ∧
      (NewCharsetEncoder.EncodeTextWithAutoCharsetSwitching textAcao displaySwitcher
        (openDisplay [])).calls = [3]) ∧
    (NewCharsetEncoder.EncodeTextWithAutoCharsetSwitching textAcao displaySwitcher
        (openDisplay [])).dev.port = some ⟨[[0x1B, 0x74, 3]], []⟩ :=
  ⟨⟨(EncodeTextWithAutoCharsetSwitching_switch_succeeds NewCharsetEncoder textAcao
        displaySwitcher (openDisplay []) (by decide) (by decide) (by decide) (by decide)
        (by decide) displaySwitcher_onlySets (by decide)).1.trans (by decide),
      (EncodeTextWithAutoCharsetSwitching_switch_succeeds NewCharsetEncoder textAcao
        displaySwitcher (openDisplay []) (by decide) (by decide) (by decide) (by decide)
        (by decide) displaySwitcher_onlySets (by decide)).2.1,
      (EncodeTextWithAutoCharsetSwitching_switch_succeeds NewCharsetEncoder textAcao
        displaySwitcher (openDisplay []) (by decide) (by decide) (by decide) (by decide)
        (by decide) displaySwitcher_onlySets (by decide)).2.2.1.trans (by decide),
      (EncodeTextWithAutoCharsetSwitching_switch_succeeds NewCharsetEncoder textAcao
        displaySwitcher (openDisplay []) (by decide) (by decide) (by decide) (by decide)
        (by decide) displaySwitcher_onlySets (by decide)).2.2.2.2.1.trans (by decide)⟩,
    by decide⟩

/-- C15, as stated, fails: on a display whose port rejects the write, the
hardware switch for "ação" is attempted and fails, yet the error returned by
`EncodeTextWithAutoCharsetSwitching` is nil. -/
theorem EncodeTextWithAutoCharsetSwitching_swallows_switch_failure :
    (displaySwitcher.SetCharacterCodeTableInternal 3 (NewCharsetEncoder.SetCharset 3)
        (openDisplay [false])).1 ≠ none ∧
      (NewCharsetEncoder.EncodeTextWithAutoCharsetSwitching textAcao displaySwitcher
        (openDisplay [false])).calls = [3] ∧
      (NewCharsetEncoder.EncodeTextWithAutoCharsetSwitching textAcao displaySwitcher
        (openDisplay [false])).err = none := by
  decide

/-- C15, amended: when the hardware switch attempted by
`EncodeTextWithAutoCharsetSwitching` fails, the failure is absorbed and not
reported: the call returns the original text as raw bytes together with a nil
error, the encoder is rolled back to the state it had before the call, and the
device is left as the failed switch left it. -/
theorem EncodeTextWithAutoCharsetSwitching_switch_fails {D : Type} (e : CharsetEncoder)
    (text : List Nat) (display : CharsetSwitcher D) (d : D) (hb : e.Bound)
    (hv : ValidString text = true)
    (hr : ¬ (pageTable e.currentCharset).representable text)
    (hne : e.detectBestCharset text ≠ e.currentCharset)
    (hbest : (pageTable (e.detectBestCharset text)).representable text)
    (hs : (display.SetCharacterCodeTableInternal (e.detectBestCharset text)
      (e.SetCharset (e.detectBestCharset text)) d).1 ≠ none) :
    (e.EncodeTextWithAutoCharsetSwitching text display d).bytes = text ∧
      (e.EncodeTextWithAutoCharsetSwitching text display d).err = none ∧
      (e.EncodeTextWithAutoCharsetSwitching text display d).enc = e ∧
      (e.EncodeTextWithAutoCharsetSwitching text display d).calls = [e.detectBestCharset text] ∧
      (e.EncodeTextWithAutoCharsetSwitching text display d).dev
        = (display.SetCharacterCodeTableInternal (e.detectBestCharset text)
            (e.SetCharset (e.detectBestCharset text)) d).2.2 := by
  rw [sync_switch hb text display d hv hr hne hbest]
  rcases hcall : display.SetCharacterCodeTableInternal (e.detectBestCharset text)
      (e.SetCharset (e.detectBestCharset text)) d with ⟨err, e2, d2⟩
  rw [hcall] at hs
  cases err with
  | none => exact absurd rfl hs
  | some msg => exact ⟨rfl, rfl, rfl, rfl, rfl⟩

theorem EncodeTextWithAutoCharsetSwitching_switch_fails_witness :
    (NewCharsetEncoder.EncodeTextWithAutoCharsetSwitching textAcao displaySwitcher
        (openDisplay [false])).bytes = textAcao ∧
      (NewCharsetEncoder.EncodeTextWithAutoCharsetSwitching textAcao displaySwitcher
        (openDisplay [false])).err = none ∧
      (NewCharsetEncoder.EncodeTextWithAutoCharsetSwitching textAcao displaySwitcher
        (openDisplay [false])).enc = NewCharsetEncoder ∧
      (NewCharsetEncoder.EncodeTextWithAutoCharsetSwitching textAcao displaySwitcher
        (openDisplay [false])).calls = [NewCharsetEncoder.detectBestCharset textAcao] ∧
      (NewCharsetEncoder.EncodeTextWithAutoCharsetSwitching textAcao displaySwitcher
        (openDisplay [false])).dev
        = (displaySwitcher.SetCharacterCodeTableInternal
            (NewCharsetEncoder.detectBestCharset textAcao)
            (NewCharsetEncoder.SetCharset (NewCharsetEncoder.detectBestCharset textAcao))
            (openDisplay [false])).2.2 :=
  EncodeTextWithAutoCharsetSwitching_switch_fails NewCharsetEncoder textAcao displaySwitcher
    (openDisplay [false]) (by decide) (by decide) (by decide) (by decide) (by decide)
    (by decide)

/-- C16: for every input text, every encoder state and every switcher,
succeeding or failing, the error value returned by
`EncodeTextWithAutoCharsetSwitching` is nil. -/
theorem EncodeTextWithAutoCharsetSwitching_err_nil {D : Type} (e : CharsetEncoder)
    (text : List Nat) (display : CharsetSwitcher D) (d : D) :
    (e.EncodeTextWithAutoCharsetSwitching text display d).err = none := by
  unfold CharsetEncoder.EncodeTextWithAutoCharsetSwitching
  split_ifs with hv
  · rfl
  · cases e.tryEncode text with
    | some encoded => rfl
    | none =>
      simp only
      split_ifs with hne
      · cases (e.SetCharset (e.detectBestCharset text)).tryEncode text with
        | none => rfl
        | some encoded =>
          simp only
          rcases display.SetCharacterCodeTableInternal (e.detectBestCharset text)
              (e.SetCharset (e.detectBestCharset text)) d with ⟨err, e2, d2⟩
          cases err <;> rfl
      · rfl

/-! ## Invariants of the encoder state -/

theorem sync_invalid {D : Type} (e : CharsetEncoder) (text : List Nat)
    (display : CharsetSwitcher D) (d : D) (hv : ValidString text = false) :
    e.EncodeTextWithAutoCharsetSwitching text display d = ⟨text, none, e, d, []⟩ := by
  unfold CharsetEncoder.EncodeTextWithAutoCharsetSwitching
  simp [hv]

/-- One call keeps the encoder's page equal to the register of the device. -/
theorem sync_step {D : Type} (display : CharsetSwitcher D) (reg : D → Int)
    (hk : display.OnlySetsRequestedPage) (hd : display.DrivesRegister reg)
    (e : CharsetEncoder) (text : List Nat) (d : D) (h0 : e.currentCharset = reg d) :
    (e.EncodeTextWithAutoCharsetSwitching text display d).enc.currentCharset
      = reg (e.EncodeTextWithAutoCharsetSwitching text display d).dev := by
  unfold CharsetEncoder.EncodeTextWithAutoCharsetSwitching
  split_ifs with hv
  · exact h0
  · cases e.tryEncode text with
    | some encoded => exact h0
    | none =>
      simp only
      split_ifs with hne
      · cases (e.SetCharset (e.detectBestCharset text)).tryEncode text with
        | none =>
          simp only [SetCharset_eq]
          exact h0
        | some encoded =>
          simp only
          have hk2 := hk (e.detectBestCharset text) (e.SetCharset (e.detectBestCharset text)) d
          have hd2 := hd (e.detectBestCharset text) (e.SetCharset (e.detectBestCharset text)) d
          rcases hcall : display.SetCharacterCodeTableInternal (e.detectBestCharset text)
              (e.SetCharset (e.detectBestCharset text)) d with ⟨err, e2, d2⟩
          rw [hcall] at hk2 hd2
          simp only at hk2 hd2
          cases err with
          | some msg =>
            simp only [SetCharset_eq]
            rw [hd2.2 (by simp)]
            exact h0
          | none =>
            simp only
            rw [hd2.1 rfl]
            rcases hk2 with h | h
            · rw [h, SetCharset_eq]
            · rw [h]; simp only [SetCharset_eq]
      · exact h0

theorem EncodeText_bound (e : CharsetEncoder) (text : List Nat) (hb : e.Bound) :
    (e.EncodeText text).2.Bound := by
  unfold CharsetEncoder.EncodeText CharsetEncoder.smartEncode
  split_ifs with hv
  · exact hb
  · cases e.tryEncode text with
    | some encoded => exact hb
    | none =>
      simp only
      split_ifs with hne
      · cases (e.SetCharset (e.detectBestCharset text)).tryEncode text with
        | none => exact SetCharset_bound _ _
        | some encoded => exact SetCharset_bound _ _
      · exact hb

theorem sync_bound {D : Type} (display : CharsetSwitcher D)
    (hk : display.OnlySetsRequestedPage) (e : CharsetEncoder) (text : List Nat) (d : D)
    (hb : e.Bound) : (e.EncodeTextWithAutoCharsetSwitching text display d).enc.Bound := by
  unfold CharsetEncoder.EncodeTextWithAutoCharsetSwitching
  split_ifs with hv
  · exact hb
  · cases e.tryEncode text with
    | some encoded => exact hb
    | none =>
      simp only
      split_ifs with hne
      · cases (e.SetCharset (e.detectBestCharset text)).tryEncode text with
        | none => exact SetCharset_bound _ _
        | some encoded =>
          simp only
          have hk2 := hk (e.detectBestCharset text) (e.SetCharset (e.detectBestCharset text)) d
          rcases hcall : display.SetCharacterCodeTableInternal (e.detectBestCharset text)
              (e.SetCharset (e.detectBestCharset text)) d with ⟨err, e2, d2⟩
          rw [hcall] at hk2
          simp only at hk2
          cases err with
          | some msg => exact SetCharset_bound _ _
          | none =>
            simp only
            rcases hk2 with h | h
            · rw [h]; exact SetCharset_bound _ _
            · rw [h]; exact SetCharset_bound _ _
      · exact hb

/-- C17: synchronisation of software and hardware. Let the switcher drive a
page register of its device, so that a successful switch sets the register to
the requested page and a failed switch leaves it unchanged, and let it touch
the encoder only as `Display` does. If the encoder's current page equals the
register before a run of calls of `EncodeTextWithAutoCharsetSwitching`, then
it equals the register after the run, for every list of texts and every
outcome of the switches; so the two agree in every state such calls reach from
a synchronised start. -/
theorem sync_invariant {D : Type} (display : CharsetSwitcher D) (reg : D → Int)
    (hk : display.OnlySetsRequestedPage) (hd : display.DrivesRegister reg)
    (texts : List (List Nat)) (e : CharsetEncoder) (d : D) (h0 : e.currentCharset = reg d) :
    (syncRun display texts (e, d)).1.currentCharset = reg (syncRun display texts (e, d)).2 := by
  induction texts generalizing e d with
  | nil => exact h0
  | cons text rest ih =>
    simp only [syncRun]
    exact ih _ _ (sync_step display reg hk hd e text d h0)

theorem sync_invariant_witness :
    NewCharsetEncoder.currentCharset = Display.devicePage 0 (openDisplay [true, false]) ∧
      (syncRun displaySwitcher [textAcao, textCafe, textEuroPrice, textCJK]
          (NewCharsetEncoder, openDisplay [true, false])).1.currentCharset
        = Display.devicePage 0
            (syncRun displaySwitcher [textAcao, textCafe, textEuroPrice, textCJK]
              (NewCharsetEncoder, openDisplay [true, false])).2 ∧
      Display.devicePage 0
          (syncRun displaySwitcher [textAcao, textCafe, textEuroPrice, textCJK]
            (NewCharsetEncoder, openDisplay [true, false])).2 = 3 :=
  ⟨by decide,
    sync_invariant displaySwitcher (Display.devicePage 0) displaySwitcher_onlySets
      (displaySwitcher_drives 0) [textAcao, textCafe, textEuroPrice, textCJK]
      NewCharsetEncoder (openDisplay [true, false]) (by decide),
    by decide⟩

/-- C18: `EncodeTextWithAutoCharsetSwitching` calls the switcher at most once
per call and only with the page `detectBestCharset` returns; it calls it only
when the text is well-formed, is not representable under the current page and
is representable under the classified page, which differs from the current
one; for every text representable under the current page the switcher is
never called. -/
theorem switcher_called_only_when_needed {D : Type} (e : CharsetEncoder) (text : List Nat)
    (display : CharsetSwitcher D) (d : D) (hb : e.Bound) :
    (e.EncodeTextWithAutoCharsetSwitching text display d).calls.length ≤ 1 ∧
      (∀ page ∈ (e.EncodeTextWithAutoCharsetSwitching text display d).calls,
        page = e.detectBestCharset text) ∧
      ((e.EncodeTextWithAutoCharsetSwitching text display d).calls ≠ [] →
        ValidString text = true ∧ ¬ (pageTable e.currentCharset).representable text ∧
          e.detectBestCharset text ≠ e.currentCharset ∧
          (pageTable (e.detectBestCharset text)).representable text) ∧
      ((pageTable e.currentCharset).representable text →
        (e.EncodeTextWithAutoCharsetSwitching text display d).calls = []) := by
  by_cases hv : ValidString text = true
  · by_cases hr : (pageTable e.currentCharset).representable text
    · rw [sync_current hb text display d hv hr]
      simp
    · by_cases hbest : e.detectBestCharset text = e.currentCharset ∨
          ¬ (pageTable (e.detectBestCharset text)).representable text
      · rw [sync_fallback hb text display d hv hr hbest]
        simp
      · have hne : e.detectBestCharset text ≠ e.currentCharset := fun h => hbest (Or.inl h)
        have hrep : (pageTable (e.detectBestCharset text)).representable text := by
          by_contra h; exact hbest (Or.inr h)
        rw [sync_switch hb text display d hv hr hne hrep]
        rcases display.SetCharacterCodeTableInternal (e.detectBestCharset text)
            (e.SetCharset (e.detectBestCharset text)) d with ⟨err, e2, d2⟩
        cases err with
        | none => simp [hv, hr, hne, hrep]
        | some msg => simp [hv, hr, hne, hrep]
  · have hv2 : ValidString text = false := by
      cases h : ValidString text with
      | false => rfl
      | true => exact absurd h hv
    rw [sync_invalid e text display d hv2]
    simp

theorem switcher_called_only_when_needed_witness :
    NewCharsetEncoder.Bound ∧
      (NewCharsetEncoder.EncodeTextWithAutoCharsetSwitching textCafe displaySwitcher
        (openDisplay [])).calls = [] ∧
      (NewCharsetEncoder.EncodeTextWithAutoCharsetSwitching textEuroPrice displaySwitcher
        (openDisplay [])).calls = [19] ∧
      (NewCharsetEncoder.EncodeTextWithAutoCharsetSwitching textEuroPrice displaySwitcher
        (openDisplay [])).calls.length ≤ 1 :=
  ⟨by decide,
    (switcher_called_only_when_needed NewCharsetEncoder textCafe displaySwitcher
      (openDisplay []) (by decide)).2.2.2 (by decide),
    by decide,
    (switcher_called_only_when_needed NewCharsetEncoder textEuroPrice displaySwitcher
      (openDisplay []) (by decide)).1⟩

/-- C19: idempotence as the specification states it. Two calls of `EncodeText`
made with the same text on encoders that are on the same current page, each
bound to the table of that page, return identical byte sequences and leave
identical encoders, so identical final pages. -/
theorem EncodeText_same_start_same_result (e1 e2 : CharsetEncoder) (text : List Nat)
    (h1 : e1.Bound) (h2 : e2.Bound) (hp : e1.currentCharset = e2.currentCharset) :
    (e1.EncodeText text).1 = (e2.EncodeText text).1 ∧
      (e1.EncodeText text).2 = (e2.EncodeText text).2 ∧
      (e1.EncodeText text).2.currentCharset = (e2.EncodeText text).2.currentCharset := by
  have he : e1 = e2 := by
    rw [bound_eq h1, bound_eq h2, hp]
  subst he
  exact ⟨rfl, rfl, rfl⟩

theorem EncodeText_same_start_same_result_witness :
    ((NewCharsetEncoder.EncodeText textAcao).2.Bound ∧
      ((NewCharsetEncoder.SetCharset 19).SetCharset 3).Bound ∧
      (NewCharsetEncoder.EncodeText textAcao).2.currentCharset
        = ((NewCharsetEncoder.SetCharset 19).SetCharset 3).currentCharset) ∧
      ((NewCharsetEncoder.EncodeText textAcao).2.EncodeText textEuroPrice).1
        = (((NewCharsetEncoder.SetCharset 19).SetCharset 3).EncodeText textEuroPrice).1 ∧
      ((NewCharsetEncoder.EncodeText textAcao).2.EncodeText textEuroPrice).2.currentCharset
        = (((NewCharsetEncoder.SetCharset 19).SetCharset 3).EncodeText
            textEuroPrice).2.currentCharset :=
  ⟨⟨by decide, by decide, by decide⟩,
    (EncodeText_same_start_same_result (NewCharsetEncoder.EncodeText textAcao).2
      ((NewCharsetEncoder.SetCharset 19).SetCharset 3) textEuroPrice (by decide) (by decide)
      (by decide)).1,
    (EncodeText_same_start_same_result (NewCharsetEncoder.EncodeText textAcao).2
      ((NewCharsetEncoder.SetCharset 19).SetCharset 3) textEuroPrice (by decide) (by decide)
      (by decide)).2.2⟩

/-- C20: the binding invariant of the encoder state. After `NewCharsetEncoder`
the current page is PC437. `SetCharset(p)` on any encoder sets the current
page to `p` and binds the table of `p`; it has no failure result. `EncodeText`
and `EncodeTextWithAutoCharsetSwitching`, the latter with a switcher that
touches the encoder only as `Display` does, leave a bound encoder bound. The
table of a page is PC850, PC860, PC858 for the pages 2, 3, 19 and the PC437
table for every other value. -/
theorem binding_invariant {D : Type} (e0 e : CharsetEncoder) (p : Int) (text : List Nat)
    (display : CharsetSwitcher D) (d : D) (hb : e.Bound)
    (hk : display.OnlySetsRequestedPage) :
    (NewCharsetEncoder.currentCharset = chartablePC437 ∧
        NewCharsetEncoder.encoder = some Charmap.CodePage437 ∧ NewCharsetEncoder.Bound) ∧
      ((e0.SetCharset p).currentCharset = p ∧
        (e0.SetCharset p).encoder = some (pageTable p) ∧ (e0.SetCharset p).Bound) ∧
      (e.EncodeText text).2.Bound ∧
      (e.EncodeTextWithAutoCharsetSwitching text display d).enc.Bound ∧
      (pageTable 2 = Charmap.CodePage850 ∧ pageTable 3 = Charmap.CodePage860 ∧
        pageTable 19 = Charmap.CodePage858 ∧
        (p ≠ 2 ∧ p ≠ 3 ∧ p ≠ 19 → pageTable p = Charmap.CodePage437)) := by
  refine ⟨⟨rfl, rfl, rfl⟩, ⟨?_, ?_, SetCharset_bound _ _⟩, EncodeText_bound e text hb,
    sync_bound display hk e text d hb, rfl, rfl, rfl, ?_⟩
  · rw [SetCharset_eq]
  · rw [SetCharset_eq]
  · rintro ⟨h2, h3, h19⟩
    unfold pageTable chartablePC850 chartablePC860 chartablePC858
    simp [h2, h3, h19]

theorem binding_invariant_witness :
    (NewCharsetEncoder.SetCharset 3).Bound ∧
      (⟨7, none⟩ : CharsetEncoder).SetCharset 19 = ⟨19, some Charmap.CodePage858⟩ ∧
      ((NewCharsetEncoder.SetCharset 3).EncodeText textEuroPrice).2
        = ⟨19, some Charmap.CodePage858⟩ ∧
      ((NewCharsetEncoder.SetCharset 3).EncodeTextWithAutoCharsetSwitching textEuroPrice
        displaySwitcher (openDisplay [false])).enc.Bound :=
  ⟨by decide, by decide, by decide,
    (binding_invariant ⟨7, none⟩ (NewCharsetEncoder.SetCharset 3) 19 textEuroPrice
      displaySwitcher (openDisplay [false]) (by decide) displaySwitcher_onlySets).2.2.2.1⟩

/-! ## Blink, brightness and cursor -/

theorem toByte_of_byte (n : Int) (h0 : 0 ≤ n) (h1 : n ≤ 255) : ((toByte n : Nat) : Int) = n := by
  unfold toByte
  have h2 : n % 256 = n := Int.emod_eq_of_lt h0 (by omega)
  rw [h2, Int.toNat_of_nonneg h0]

/-- Within the range of a byte of steps the blink command carries `ms / 50`. -/
theorem SetBlink_in_range (p : Protocol) (ms : Int) (h0 : 0 ≤ ms) (h1 : ms < 12800) :
    p.SetBlink ms = some [0x1F, 0x45, (ms / 50).toNat] := by
  unfold Protocol.SetBlink BuildSetBlinkSeq CmdUnitSeparator CmdUSSetBlink toByte
  have hneg : ¬ ms < 0 := by omega
  have hq : Int.tdiv ms 50 = ms / 50 := Int.tdiv_eq_ediv h0 (by decide)
  have hlt : ms / 50 < 256 := by omega
  have hge : 0 ≤ ms / 50 := by omega
  have hm : ms / 50 % 256 = ms / 50 := Int.emod_eq_of_lt hge hlt
  simp only [hneg, if_false, hq, hm]

/-- A negative period yields no command and an error, whatever the display. -/
theorem SetBlink_negative (p : Protocol) (d : Display) (ms : Int) (h : ms < 0) :
    p.SetBlink ms = none ∧ (d.SetBlink ms).1 ≠ none ∧ (d.SetBlink ms).2 = d := by
  refine ⟨by simp [Protocol.SetBlink, h], ?_, ?_⟩
  · unfold Display.SetBlink
    cases d.port <;> cases d.protocol <;> simp [h]
  · unfold Display.SetBlink
    cases d.port <;> cases d.protocol <;> simp [h]

/-- C21: the code at the failing input 12800 ms. The quotient 12800 / 50 is
256, yet the command sent is 1F 45 00, whose step count 0 is the low byte of
256; `Display.SetBlink` reports no error and stores 12800. -/
theorem SetBlink_truncates_steps :
    Int.tdiv 12800 50 = 256 ∧
      Protocol.SetBlink Protocol.ESCPOS 12800 = some [0x1F, 0x45, 0] ∧
      ((openDisplay []).SetBlink 12800).1 = none ∧
      ((openDisplay []).SetBlink 12800).2.wire = [0x1F, 0x45, 0] ∧
      ((openDisplay []).SetBlink 12800).2.GetBlinkMs = 12800 := by
  decide

theorem Port.Write_working (p : Port) (payload : List Nat) (hw : p.Working) :
    (p.Write payload).1 = none ∧ (p.Write payload).2.frames = p.frames ++ [payload] ∧
      (p.Write payload).2.Working := by
  unfold Port.Write
  rcases hs : p.script with _ | ⟨b, rest⟩
  · refine ⟨rfl, rfl, ?_⟩
    intro b hb
    simp only [Port.Working, hs] at hw
    exact hw b hb
  · have hb : b = true := hw b (by rw [hs]; exact List.mem_cons_self _ _)
    subst hb
    refine ⟨rfl, rfl, ?_⟩
    intro c hc
    exact hw c (by rw [hs]; exact List.mem_cons_of_mem _ hc)

theorem writeBytes_working (d : Display) (p : Port) (payload : List Nat)
    (hport : d.port = some p) (hw : p.Working) :
    d.writeBytes payload = (none, { d with port := some (p.Write payload).2 }) := by
  unfold Display.writeBytes
  rw [hport]
  simp only [(Port.Write_working p payload hw).1]

/-- C22: for a display with a protocol set and a port whose writes succeed,
`SetBrightness(level)` returns an error exactly when `level` is outside 1..4;
on success the frame 1F 58 level is sent and `GetBrightness` returns `level`.
For every display, whenever `SetBrightness` returns an error the stored
brightness is unchanged, and for a level outside 1..4 the display, its port
included, is left as it was, so nothing is sent. -/
theorem SetBrightness_contract (d d2 : Display) (p : Port) (pr : Protocol) (level level2 : Int)
    (hproto : d.protocol = some pr) (hport : d.port = some p) (hw : p.Working) :
    ((d.SetBrightness level).1 ≠ none ↔ (level < 1 ∨ level > 4)) ∧
      (¬ (level < 1 ∨ level > 4) →
        (d.SetBrightness level).2.port.map Port.frames
            = some (p.frames ++ [[0x1F, 0x58, level.toNat]]) ∧
          (d.SetBrightness level).2.GetBrightness = level) ∧
      ((d2.SetBrightness level2).1 ≠ none →
        (d2.SetBrightness level2).2.GetBrightness = d2.GetBrightness) ∧
      ((level2 < 1 ∨ level2 > 4) → (d2.SetBrightness level2).2 = d2) := by
  refine ⟨?_, ?_, ?_, ?_⟩
  · unfold Display.SetBrightness
    rw [hproto]
    simp only
    by_cases hl : level < 1 ∨ level > 4
    · simp [hl]
    · simp only [hl, if_false, Protocol.SetBrightness, iff_false, not_not]
      rw [writeBytes_working d p _ hport hw]
  · intro hl
    unfold Display.SetBrightness Display.GetBrightness
    rw [hproto]
    simp only [hl, if_false, Protocol.SetBrightness]
    rw [writeBytes_working d p _ hport hw]
    simp only [Option.map_some', (Port.Write_working p _ hw).2.1, and_true]
    have hb : toByte level = level.toNat := by
      unfold toByte
      have : level % 256 = level := Int.emod_eq_of_lt (by omega) (by omega)
      rw [this]
    simp only [BuildSetBrightnessSeq, CmdUnitSeparator, CmdUSSetBrightness, hb]
  · unfold Display.SetBrightness Display.GetBrightness
    cases d2.protocol with
    | none => intro _; rfl
    | some pr2 =>
      simp only
      by_cases hl : level2 < 1 ∨ level2 > 4
      · simp [hl]
      · simp only [hl, if_false, Protocol.SetBrightness]
        unfold Display.writeBytes
        cases d2.port with
        | none => intro _; rfl
        | some p2 =>
          simp only
          cases (p2.Write (BuildSetBrightnessSeq (toByte level2))).1 with
          | none => intro h; exact absurd rfl h
          | some msg => intro _; rfl
  · intro hl
    unfold Display.SetBrightness
    cases d2.protocol with
    | none => rfl
    | some pr2 => simp [hl]

theorem SetBrightness_contract_witness :
    ((openDisplay []).protocol = some Protocol.ESCPOS ∧
      (openDisplay []).port = some ⟨[], []⟩ ∧ (⟨[], []⟩ : Port).Working) ∧
    (((openDisplay []).SetBrightness 3).1 = none ∧
      ((openDisplay []).SetBrightness 3).2.wire = [0x1F, 0x58, 3] ∧
      ((openDisplay []).SetBrightness 3).2.GetBrightness = 3 ∧
      ((openDisplay []).SetBrightness 5).1 ≠ none) ∧
    (((openDisplay []).SetBrightness 3).1 ≠ none ↔ ((3 : Int) < 1 ∨ (3 : Int) > 4)) :=
  ⟨by decide, by decide,
    (SetBrightness_contract (openDisplay []) (openDisplay [false]) ⟨[], []⟩ Protocol.ESCPOS 3 3
      (by decide) (by decide) (by decide)).1⟩

/-- A position left of or above the first cell is never sent: the display is
left as it was, and the error is returned unless the position is the tracked
cursor itself. -/
theorem SetCursor_below_one (d : Display) (column row : Int) (h : column < 1 ∨ row < 1) :
    (d.SetCursor column row).2 = d ∧
      (¬ (d.cursorColumn = column ∧ d.cursorRow = row) →
        (d.SetCursor column row).1 = some "column/row must be >= 1") ∧
      ((d.cursorColumn = column ∧ d.cursorRow = row) → (d.SetCursor column row).1 = none) := by
  unfold Display.SetCursor
  by_cases hc : d.cursorColumn = column ∧ d.cursorRow = row
  · simp [hc]
  · simp [hc, h]

/-- C23: the code at the failing input. On a display whose cursor was never
set, so that it is tracked as (0, 0), `SetCursor(0, 0)` returns nil and not
the error for a position below 1; nothing is sent. -/
theorem SetCursor_zero_on_unset_cursor :
    (openDisplay []).GetCursor = (0, 0) ∧ ((0 : Int) < 1 ∨ (0 : Int) < 1) ∧
      ((openDisplay []).SetCursor 0 0).1 = none ∧
      ((openDisplay []).SetCursor 0 0).2 = openDisplay [] ∧
      ((openDisplay []).SetCursor 0 1).1 = some "column/row must be >= 1" := by
  decide

theorem mod_rows_columns (y c r rows : Int) (hc : 0 < c) (hrows : 0 < rows)
    (hr0 : 0 ≤ r) (hr1 : r < c) :
    (y * c + r) % (c * rows) = (y % rows) * c + r := by
  have h1 : y * c + r = (y % rows) * c + r + (c * rows) * (y / rows) := by
    have := Int.emod_add_ediv y rows
    calc y * c + r = (y % rows + rows * (y / rows)) * c + r := by rw [this]
      _ = (y % rows) * c + r + (c * rows) * (y / rows) := by ring
  rw [h1, Int.add_mul_emod_self_left]
  have hm0 : 0 ≤ y % rows := Int.emod_nonneg y (by omega)
  have hm1 : y % rows < rows := Int.emod_lt_of_pos y hrows
  apply Int.emod_eq_of_lt
  · have : 0 ≤ (y % rows) * c := Int.mul_nonneg hm0 (by omega)
    omega
  · have h2 : (y % rows) * c ≤ (rows - 1) * c :=
      Int.mul_le_mul_of_nonneg_right (by omega) (by omega)
    have h3 : (rows - 1) * c = c * rows - c := by ring
    omega

theorem wrapInt_of_range (x : Int) (h0 : -9223372036854775808 ≤ x) (h1 : x ≤ MaxInt) :
    wrapInt x = x := by
  unfold MaxInt at h1
  unfold wrapInt
  omega

/-- Past the range of `int` the sum in `advanceCursorBy` wraps: on a 20 by 2
display with the cursor at (20, 1), advancing by 2^63 - 1 leaves (-9, 0). -/
theorem advanceCursorBy_wraps :
    (Display.advanceCursorBy { openDisplay [] with cursorColumn := 20, cursorRow := 1 }
      MaxInt).GetCursor = (-9, 0) := by
  decide

/-- C24: on a display with `columns > 0` and `rows > 0` whose cursor is within
1..columns by 1..rows, `advanceCursorBy(n)` with `n > 0`, `n` small enough that
the two sums the method forms stay within the range of `int`, moves the cursor
to the cell whose linear index is the old linear index plus `n`, modulo
`columns * rows`, so the new cursor is again within 1..columns by 1..rows. With
`n <= 0`, or `columns <= 0`, or `rows <= 0`, the display is unchanged. -/
theorem advanceCursorBy_linear (d d2 : Display) (n n2 : Int) (hc : d.columns > 0)
    (hr : d.rows > 0) (hcol : 1 ≤ d.cursorColumn ∧ d.cursorColumn ≤ d.columns)
    (hrow : 1 ≤ d.cursorRow ∧ d.cursorRow ≤ d.rows) (hn : n > 0)
    (hcmax : d.columns ≤ MaxInt) (hrmax : d.rows ≤ MaxInt)
    (htotal : d.cursorColumn - 1 + n ≤ MaxInt)
    (hnewRow : d.cursorRow + (d.cursorColumn - 1 + n) / d.columns ≤ MaxInt) :
    linearIndex d.columns (d.advanceCursorBy n).cursorColumn (d.advanceCursorBy n).cursorRow
        = (linearIndex d.columns d.cursorColumn d.cursorRow + n) % (d.columns * d.rows) ∧
      (1 ≤ (d.advanceCursorBy n).cursorColumn ∧
        (d.advanceCursorBy n).cursorColumn ≤ d.columns) ∧
      (1 ≤ (d.advanceCursorBy n).cursorRow ∧ (d.advanceCursorBy n).cursorRow ≤ d.rows) ∧
      ((n2 ≤ 0 ∨ d2.columns ≤ 0 ∨ d2.rows ≤ 0) → d2.advanceCursorBy n2 = d2) := by
  have hM : MaxInt = 9223372036854775807 := rfl
  rw [hM] at hcmax hrmax htotal hnewRow
  have hn0 : ¬ n ≤ 0 := by omega
  have hd0 : ¬ (d.columns ≤ 0 ∨ d.rows ≤ 0) := by omega
  have hc1 : ¬ d.cursorColumn < 1 := by omega
  have hr1 : ¬ d.cursorRow < 1 := by omega
  have hx0 : 0 ≤ d.cursorColumn - 1 + n := by omega
  have hq : Int.tdiv (d.cursorColumn - 1 + n) d.columns = (d.cursorColumn - 1 + n) / d.columns :=
    Int.tdiv_eq_ediv hx0 (by omega)
  have hm : Int.tmod (d.cursorColumn - 1 + n) d.columns = (d.cursorColumn - 1 + n) % d.columns :=
    Int.tmod_eq_emod hx0 (by omega)
  have hq0 : 0 ≤ (d.cursorColumn - 1 + n) / d.columns := Int.ediv_nonneg hx0 (by omega)
  have hy0 : 0 ≤ d.cursorRow + (d.cursorColumn - 1 + n) / d.columns - 1 := by omega
  have hm2 : Int.tmod (d.cursorRow + (d.cursorColumn - 1 + n) / d.columns - 1) d.rows
      = (d.cursorRow + (d.cursorColumn - 1 + n) / d.columns - 1) % d.rows :=
    Int.tmod_eq_emod hy0 (by omega)
  have ha0 : 0 ≤ (d.cursorColumn - 1 + n) % d.columns := Int.emod_nonneg _ (by omega)
  have ha1 : (d.cursorColumn - 1 + n) % d.columns < d.columns := Int.emod_lt_of_pos _ hc
  have hb0 : 0 ≤ (d.cursorRow + (d.cursorColumn - 1 + n) / d.columns - 1) % d.rows :=
    Int.emod_nonneg _ (by omega)
  have hb1 : (d.cursorRow + (d.cursorColumn - 1 + n) / d.columns - 1) % d.rows < d.rows :=
    Int.emod_lt_of_pos _ hr
  have w1 : wrapInt (d.cursorColumn - 1) = d.cursorColumn - 1 :=
    wrapInt_of_range _ (by omega) (by rw [hM]; omega)
  have w2 : wrapInt (d.cursorColumn - 1 + n) = d.cursorColumn - 1 + n :=
    wrapInt_of_range _ (by omega) (by rw [hM]; omega)
  have w3 : wrapInt ((d.cursorColumn - 1 + n) % d.columns + 1)
      = (d.cursorColumn - 1 + n) % d.columns + 1 :=
    wrapInt_of_range _ (by omega) (by rw [hM]; omega)
  have w4 : wrapInt (d.cursorRow + (d.cursorColumn - 1 + n) / d.columns)
      = d.cursorRow + (d.cursorColumn - 1 + n) / d.columns :=
    wrapInt_of_range _ (by omega) (by rw [hM]; omega)
  have w5 : wrapInt (d.cursorRow + (d.cursorColumn - 1 + n) / d.columns - 1)
      = d.cursorRow + (d.cursorColumn - 1 + n) / d.columns - 1 :=
    wrapInt_of_range _ (by omega) (by rw [hM]; omega)
  have w6 : wrapInt ((d.cursorRow + (d.cursorColumn - 1 + n) / d.columns - 1) % d.rows + 1)
      = (d.cursorRow + (d.cursorColumn - 1 + n) / d.columns - 1) % d.rows + 1 :=
    wrapInt_of_range _ (by omega) (by rw [hM]; omega)
  have hcolv : (d.advanceCursorBy n).cursorColumn
      = (d.cursorColumn - 1 + n) % d.columns + 1 := by
    unfold Display.advanceCursorBy
    simp only [hn0, hd0, hc1, if_false, w1, w2, hm, w3]
  have hrowv : (d.advanceCursorBy n).cursorRow
      = (d.cursorRow + (d.cursorColumn - 1 + n) / d.columns - 1) % d.rows + 1 := by
    unfold Display.advanceCursorBy
    simp only [hn0, hd0, hc1, hr1, if_false, hr, if_true, w1, w2, hq, w4, w5, hm2, w6]
  refine ⟨?_, ?_, ?_, ?_⟩
  · rw [hcolv, hrowv]
    unfold linearIndex
    have hsplit : (d.cursorRow - 1) * d.columns + (d.cursorColumn - 1) + n
        = (d.cursorRow + (d.cursorColumn - 1 + n) / d.columns - 1) * d.columns
          + (d.cursorColumn - 1 + n) % d.columns := by
      have := Int.emod_add_ediv (d.cursorColumn - 1 + n) d.columns
      calc (d.cursorRow - 1) * d.columns + (d.cursorColumn - 1) + n
          = (d.cursorRow - 1) * d.columns + (d.cursorColumn - 1 + n) := by ring
        _ = (d.cursorRow - 1) * d.columns + ((d.cursorColumn - 1 + n) % d.columns
              + d.columns * ((d.cursorColumn - 1 + n) / d.columns)) := by rw [this]
        _ = _ := by ring
    rw [hsplit, mod_rows_columns _ _ _ _ hc hr ha0 ha1]
    ring
  · rw [hcolv]; omega
  · rw [hrowv]; omega
  · intro h
    unfold Display.advanceCursorBy
    by_cases h1 : n2 ≤ 0
    · simp [h1]
    · have h2 : d2.columns ≤ 0 ∨ d2.rows ≤ 0 := by tauto
      simp [h1, h2]

theorem advanceCursorBy_linear_witness :
    ((openDisplay []).columns > 0 ∧ (openDisplay []).rows > 0 ∧ (5 : Int) > 0 ∧
      (openDisplay []).columns ≤ MaxInt ∧ (openDisplay []).rows ≤ MaxInt ∧
      (19 : Int) - 1 + 5 ≤ MaxInt ∧ (2 : Int) + (19 - 1 + 5) / 20 ≤ MaxInt) ∧
      (({ openDisplay [] with cursorColumn := 19, cursorRow := 2 }).advanceCursorBy 5).GetCursor
        = (4, 1) ∧
      linearIndex 20 4 1 = (linearIndex 20 19 2 + 5) % (20 * 2) :=
  ⟨by decide, by decide,
    ((advanceCursorBy_linear { openDisplay [] with cursorColumn := 19, cursorRow := 2 }
      (openDisplay []) 5 0 (by decide) (by decide) (by decide) (by decide) (by decide)
      (by decide) (by decide) (by decide) (by decide)).1.symm.trans
      (by decide)).symm⟩

/-! ## The fallback and repeated calls -/

theorem rangeFrom_ascii : ∀ (s : List Nat), (∀ b ∈ s, b < 128) → rangeFrom 0 s = s := by
  intro s
  induction s with
  | nil => intro _; rfl
  | cons s0 rest ih =>
    intro h
    have h0 : s0 < RuneSelf := h s0 (List.mem_cons_self _ _)
    simp only [rangeFrom, decode_ascii s0 rest h0, Nat.sub_self]
    rw [ih (fun b hb => h b (List.mem_cons_of_mem _ hb))]

/-- A text that a page cannot represent holds a byte of `0x80` or more. -/
theorem high_byte_of_not_representable (cm : Charmap) (text : List Nat)
    (hr : ¬ cm.representable text) : ∃ b ∈ text, 0x80 ≤ b := by
  by_contra hno
  have hall : ∀ b ∈ text, b < 128 := by
    intro b hb
    by_contra hge
    exact hno ⟨b, hb, by omega⟩
  apply hr
  intro r hrmem
  unfold rangeString at hrmem
  rw [rangeFrom_ascii text hall] at hrmem
  exact Or.inl (hall r hrmem)

/-- C25: the code at two failing inputs. The fallback of `EncodeText` on "中"
and the fallback of `EncodeTextWithAutoCharsetSwitching` on "ação", reached
when the hardware switch fails, return the UTF-8 bytes of the text, and these
are not below `0x80`. -/
theorem fallback_returns_high_bytes :
    ValidString textCJK = true ∧
      NewCharsetEncoder.EncodeText textCJK = (textCJK, NewCharsetEncoder) ∧
      (∀ b ∈ (NewCharsetEncoder.EncodeText textCJK).1, 0x80 ≤ b) ∧
      ValidString textAcao = true ∧
      (NewCharsetEncoder.EncodeTextWithAutoCharsetSwitching textAcao failingSwitcher ()).bytes
        = textAcao ∧
      0xC3 ∈ (NewCharsetEncoder.EncodeTextWithAutoCharsetSwitching textAcao failingSwitcher
        ()).bytes := by
  decide

/-- C26: sequential idempotence. For every text and every encoder bound to
its page, calling `EncodeText(text)` and then `EncodeText(text)` again on the
encoder the first call left behind returns the same bytes both times, and the
second call leaves the encoder, and so the current page, as the first call
left it. -/
theorem EncodeText_twice (e : CharsetEncoder) (text : List Nat) (hb : e.Bound) :
    ((e.EncodeText text).2.EncodeText text).1 = (e.EncodeText text).1 ∧
      ((e.EncodeText text).2.EncodeText text).2 = (e.EncodeText text).2 ∧
      ((e.EncodeText text).2.EncodeText text).2.currentCharset
        = (e.EncodeText text).2.currentCharset := by
  have key : (e.EncodeText text).2.EncodeText text
      = ((e.EncodeText text).1, (e.EncodeText text).2) := by
    by_cases hv : ValidString text = true
    · by_cases hr : (pageTable e.currentCharset).representable text
      · rw [EncodeText_current hb text hv hr]
        simp only
        rw [EncodeText_current hb text hv hr]
      · by_cases hbest : (pageTable (e.detectBestCharset text)).representable text
        · have hne : e.detectBestCharset text ≠ e.currentCharset := by
            intro heq; rw [heq] at hbest; exact hr hbest
          rw [EncodeText_switch hb text hv hr hne hbest]
          simp only
          have hb2 : (⟨e.detectBestCharset text, some (pageTable (e.detectBestCharset text))⟩ :
              CharsetEncoder).Bound := rfl
          rw [EncodeText_current hb2 text hv hbest]
        · rw [EncodeText_fallback hb text hv hr hbest]
          simp only
          rw [EncodeText_fallback hb text hv hr hbest]
    · have hv2 : ValidString text = false := by
        cases h : ValidString text with
        | false => rfl
        | true => exact absurd h hv
      simp [CharsetEncoder.EncodeText, hv2]
  rw [key]
  exact ⟨rfl, rfl, rfl⟩

theorem EncodeText_twice_witness :
    NewCharsetEncoder.Bound ∧
      ((NewCharsetEncoder.EncodeText textAcao).2.EncodeText textAcao).1 = [0x61, 0x87, 0x84, 0x6F] ∧
      (NewCharsetEncoder.EncodeText textAcao).1 = [0x61, 0x87, 0x84, 0x6F] ∧
      ((NewCharsetEncoder.EncodeText textAcao).2.EncodeText textAcao).2.currentCharset
        = (NewCharsetEncoder.EncodeText textAcao).2.currentCharset :=
  ⟨by decide,
    (EncodeText_twice NewCharsetEncoder textAcao (by decide)).1.trans (by decide),
    by decide,
    (EncodeText_twice NewCharsetEncoder textAcao (by decide)).2.2⟩

/-! ## Concatenation of texts -/

theorem leadSize_two (s0 : Nat) (ha : 0xC2 ≤ s0) (hb : s0 ≤ 0xDF) : leadSize s0 = 2 := by
  unfold leadSize; split_ifs <;> omega

theorem leadSize_three (s0 : Nat) (ha : 0xE0 ≤ s0) (hb : s0 ≤ 0xEF) : leadSize s0 = 3 := by
  unfold leadSize; split_ifs <;> omega

theorem leadSize_four (s0 : Nat) (ha : 0xF0 ≤ s0) (hb : s0 ≤ 0xF4) : leadSize s0 = 4 := by
  unfold leadSize; split_ifs <;> omega

theorem decode_two (s0 s1 : Nat) (t : List Nat) (ha : 0xC2 ≤ s0) (hb : s0 ≤ 0xDF)
    (hc : 0x80 ≤ s1) (hd : s1 ≤ 0xBF) :
    DecodeRuneInString (s0 :: s1 :: t) = ((s0 % 32) * 64 + s1 % 64, 2) := by
  have h0 : ¬ s0 < RuneSelf := by unfold RuneSelf; omega
  have hlo : acceptLo s0 = 0x80 := by unfold acceptLo; split_ifs <;> omega
  have hhi : acceptHi s0 = 0xBF := by unfold acceptHi; split_ifs <;> omega
  have hr : ¬ (s1 < acceptLo s0 ∨ acceptHi s0 < s1) := by omega
  simp [DecodeRuneInString, h0, leadSize_two s0 ha hb, hr, bits2]

theorem decode_three (s0 s1 s2 : Nat) (t : List Nat) (ha : 0xE0 ≤ s0) (hb : s0 ≤ 0xEF)
    (hc : acceptLo s0 ≤ s1) (hd : s1 ≤ acceptHi s0) (hc2 : 0x80 ≤ s2) (hd2 : s2 ≤ 0xBF) :
    DecodeRuneInString (s0 :: s1 :: s2 :: t)
      = ((s0 % 16) * 4096 + (s1 % 64) * 64 + s2 % 64, 3) := by
  have h0 : ¬ s0 < RuneSelf := by unfold RuneSelf; omega
  have hr : ¬ (s1 < acceptLo s0 ∨ acceptHi s0 < s1) := by omega
  have hr2 : ¬ (s2 < 0x80 ∨ 0xBF < s2) := by omega
  simp [DecodeRuneInString, h0, leadSize_three s0 ha hb, hr, hr2, bits3]

theorem decode_four (s0 s1 s2 s3 : Nat) (t : List Nat) (ha : 0xF0 ≤ s0) (hb : s0 ≤ 0xF4)
    (hc : acceptLo s0 ≤ s1) (hd : s1 ≤ acceptHi s0) (hc2 : 0x80 ≤ s2) (hd2 : s2 ≤ 0xBF)
    (hc3 : 0x80 ≤ s3) (hd3 : s3 ≤ 0xBF) :
    DecodeRuneInString (s0 :: s1 :: s2 :: s3 :: t)
      = ((s0 % 8) * 262144 + (s1 % 64) * 4096 + (s2 % 64) * 64 + s3 % 64, 4) := by
  have h0 : ¬ s0 < RuneSelf := by unfold RuneSelf; omega
  have hr : ¬ (s1 < acceptLo s0 ∨ acceptHi s0 < s1) := by omega
  have hr2 : ¬ (s2 < 0x80 ∨ 0xBF < s2) := by omega
  have hr3 : ¬ (s3 < 0x80 ∨ 0xBF < s3) := by omega
  simp [DecodeRuneInString, h0, leadSize_four s0 ha hb, hr, hr2, hr3, bits4]

/-- A decode that does not fail reads only the bytes it consumes. -/
theorem decode_append (s0 : Nat) (rest t : List Nat) (h0 : ¬ s0 < RuneSelf)
    (h1 : ¬ (DecodeRuneInString (s0 :: rest)).2 = 1) :
    DecodeRuneInString (s0 :: (rest ++ t)) = DecodeRuneInString (s0 :: rest) ∧
      (DecodeRuneInString (s0 :: rest)).2 - 1 ≤ rest.length := by
  rcases decode_multi s0 rest h0 h1 with ⟨s1, u, rfl, ha, hb, hc, hd, he⟩ |
    ⟨s1, s2, u, rfl, ha, hb, hc, hd, hc2, hd2, he⟩ |
    ⟨s1, s2, s3, u, rfl, ha, hb, hc, hd, hc2, hd2, hc3, hd3, he⟩
  · rw [he]
    exact ⟨decode_two s0 s1 (u ++ t) ha hb hc hd, by simp⟩
  · rw [he]
    exact ⟨decode_three s0 s1 s2 (u ++ t) ha hb hc hd hc2 hd2, by simp⟩
  · rw [he]
    exact ⟨decode_four s0 s1 s2 s3 (u ++ t) ha hb hc hd hc2 hd2 hc3 hd3, by simp⟩

/-- The characters of a well-formed text followed by another text are the
characters of the first followed by the characters of the second. -/
theorem rangeFrom_append :
    ∀ (s : List Nat) (k : Nat) (t : List Nat), validFrom k s = true → k ≤ s.length →
      rangeFrom k (s ++ t) = rangeFrom k s ++ rangeFrom 0 t := by
  intro s
  induction s with
  | nil =>
    intro k t _ hk
    have : k = 0 := by simpa using hk
    subst this
    cases t <;> rfl
  | cons s0 rest ih =>
    intro k t hv hk
    cases k with
    | succ k =>
      simp only [List.cons_append, rangeFrom, validFrom, List.append_eq] at hv ⊢
      exact ih k t hv (by simpa using hk)
    | zero =>
      simp only [List.cons_append, rangeFrom, List.append_eq]
      by_cases h0 : s0 < RuneSelf
      · simp only [validFrom, h0, if_true] at hv
        rw [decode_ascii s0 (rest ++ t) h0, decode_ascii s0 rest h0]
        simp only [Nat.sub_self, List.cons_append]
        rw [ih 0 t hv (Nat.zero_le _)]
      · simp only [validFrom, h0, if_false] at hv
        split_ifs at hv with h1
        obtain ⟨hd, hl⟩ := decode_append s0 rest t h0 h1
        rw [hd, ih _ t hv hl]

theorem rangeString_append (s t : List Nat) (hv : ValidString s = true) :
    rangeString (s ++ t) = rangeString s ++ rangeString t :=
  rangeFrom_append s 0 t hv (Nat.zero_le _)

theorem detectBestCharset_of_runes (e : CharsetEncoder) (text : List Nat) (l1 l2 : List Nat)
    (h : rangeString text = l1 ++ l2) :
    e.detectBestCharset text =
      if (∃ r ∈ l1, r ∈ portugueseMarkers) ∨ (∃ r ∈ l2, r ∈ portugueseMarkers) then
        chartablePC860
      else if 0x20AC ∈ l1 ∨ 0x20AC ∈ l2 then chartablePC858
      else if (∃ r ∈ l1, 0xC0 ≤ r ∧ r ≤ 0xFF) ∨ (∃ r ∈ l2, 0xC0 ≤ r ∧ r ≤ 0xFF) then
        chartablePC850
      else chartablePC437 := by
  rw [detectBestCharset_eq, h]
  have hP : (∃ r ∈ l1 ++ l2, r ∈ portugueseMarkers) ↔
      (∃ r ∈ l1, r ∈ portugueseMarkers) ∨ (∃ r ∈ l2, r ∈ portugueseMarkers) := by
    simp only [List.mem_append, or_and_right, exists_or]
  have hL : (∃ r ∈ l1 ++ l2, 0xC0 ≤ r ∧ r ≤ 0xFF) ↔
      (∃ r ∈ l1, 0xC0 ≤ r ∧ r ≤ 0xFF) ∨ (∃ r ∈ l2, 0xC0 ≤ r ∧ r ≤ 0xFF) := by
    simp only [List.mem_append, or_and_right, exists_or]
  have hE : 0x20AC ∈ l1 ++ l2 ↔ 0x20AC ∈ l1 ∨ 0x20AC ∈ l2 := List.mem_append
  rw [if_congr hP rfl (if_congr hE rfl (if_congr hL rfl rfl))]

/-- Across a seam of malformed pieces the bytes fuse into a new character:
C3 and A3 are each malformed, together they are ã. -/
theorem detectBestCharset_malformed_seam :
    ValidString [0xC3] = false ∧ NewCharsetEncoder.detectBestCharset [0xC3] = chartablePC437 ∧
      NewCharsetEncoder.detectBestCharset [0xA3] = chartablePC437 ∧
      NewCharsetEncoder.detectBestCharset ([0xC3] ++ [0xA3]) = chartablePC860 := by
  decide

/-- C27: `detectBestCharset` depends only on the set of characters present.
For all texts `s` and `t`, `s` well-formed, the page of `s ++ t` is the
higher-priority of the pages of `s` and of `t` under the order PC860 > PC858 >
PC850 > PC437. Two texts with the same set of characters get the same page, so
the page is invariant under reordering and repeating characters; inserting or
deleting an ASCII character does not change it; and the result is the same for
every encoder state, which the function only returns a page from. -/
theorem detectBestCharset_append (e1 e2 : CharsetEncoder) (s t u : List Nat) (a : Nat)
    (hv : ValidString s = true) (ha : a < 128)
    (hset : ∀ r, r ∈ rangeString t ↔ r ∈ rangeString u) :
    e1.detectBestCharset (s ++ t)
        = higherPriority (e1.detectBestCharset s) (e1.detectBestCharset t) ∧
      e1.detectBestCharset t = e1.detectBestCharset u ∧
      e1.detectBestCharset (s ++ a :: t) = e1.detectBestCharset (s ++ t) ∧
      e1.detectBestCharset s = e2.detectBestCharset s := by
  refine ⟨?_, ?_, ?_, rfl⟩
  · rw [detectBestCharset_of_runes e1 (s ++ t) _ _ (rangeString_append s t hv),
      detectBestCharset_eq e1 s, detectBestCharset_eq e1 t]
    by_cases hp1 : ∃ r ∈ rangeString s, r ∈ portugueseMarkers <;>
    by_cases hp2 : ∃ r ∈ rangeString t, r ∈ portugueseMarkers <;>
    by_cases he1 : 0x20AC ∈ rangeString s <;>
    by_cases he2 : 0x20AC ∈ rangeString t <;>
    by_cases hl1 : ∃ r ∈ rangeString s, 0xC0 ≤ r ∧ r ≤ 0xFF <;>
    by_cases hl2 : ∃ r ∈ rangeString t, 0xC0 ≤ r ∧ r ≤ 0xFF <;>
    simp only [hp1, hp2, he1, he2, hl1, hl2, or_self, or_true, true_or, or_false, false_or,
      if_true, if_false] <;>
    decide
  · rw [detectBestCharset_eq e1 t, detectBestCharset_eq e1 u]
    simp only [hset]
  · have h1 : rangeString (s ++ a :: t) = rangeString s ++ (a :: rangeString t) := by
      rw [rangeString_append s (a :: t) hv]
      have h0 : a < RuneSelf := ha
      simp only [rangeString, rangeFrom, decode_ascii a t h0, Nat.sub_self]
    rw [detectBestCharset_of_runes e1 (s ++ a :: t) _ _ h1,
      detectBestCharset_of_runes e1 (s ++ t) _ _ (rangeString_append s t hv)]
    have hP : (∃ r ∈ a :: rangeString t, r ∈ portugueseMarkers) ↔
        ∃ r ∈ rangeString t, r ∈ portugueseMarkers := by
      simp only [List.mem_cons, exists_eq_or_imp, portugueseMarkers, List.mem_singleton,
        List.not_mem_nil, or_false]
      constructor
      · rintro (h | h)
        · omega
        · exact h
      · intro h; exact Or.inr h
    have hE : 0x20AC ∈ a :: rangeString t ↔ 0x20AC ∈ rangeString t := by
      simp only [List.mem_cons]
      constructor
      · rintro (h | h)
        · omega
        · exact h
      · intro h; exact Or.inr h
    have hL : (∃ r ∈ a :: rangeString t, 0xC0 ≤ r ∧ r ≤ 0xFF) ↔
        ∃ r ∈ rangeString t, 0xC0 ≤ r ∧ r ≤ 0xFF := by
      simp only [List.mem_cons, exists_eq_or_imp]
      constructor
      · rintro (h | h)
        · omega
        · exact h
      · intro h; exact Or.inr h
    simp only [hP, hE, hL]

theorem detectBestCharset_append_witness :
    (ValidString textCafe = true ∧ (0x20 : Nat) < 128 ∧
      ∀ r, r ∈ rangeString textEuroPrice ↔
        r ∈ rangeString [0x39, 0x2E, 0x31, 0xE2, 0x82, 0xAC, 0xE2, 0x82, 0xAC]) ∧
      NewCharsetEncoder.detectBestCharset (textCafe ++ textEuroPrice) = chartablePC858 ∧
      higherPriority (NewCharsetEncoder.detectBestCharset textCafe)
        (NewCharsetEncoder.detectBestCharset textEuroPrice) = chartablePC858 ∧
      NewCharsetEncoder.detectBestCharset textEuroPrice
        = NewCharsetEncoder.detectBestCharset
            [0x39, 0x2E, 0x31, 0xE2, 0x82, 0xAC, 0xE2, 0x82, 0xAC] :=
  ⟨⟨by decide, by decide, by intro r; simp [textEuroPrice, rangeString, rangeFrom,
      DecodeRuneInString, RuneSelf, leadSize, acceptLo, acceptHi]; tauto⟩,
    by decide, by decide,
    (detectBestCharset_append NewCharsetEncoder NewCharsetEncoder textCafe textEuroPrice
      [0x39, 0x2E, 0x31, 0xE2, 0x82, 0xAC, 0xE2, 0x82, 0xAC] 0x20 (by decide) (by decide)
      (by intro r; simp [textEuroPrice, rangeString, rangeFrom,
        DecodeRuneInString, RuneSelf, leadSize, acceptLo, acceptHi]; tauto)).2.1⟩

/-! ## Bytes and characters -/

theorem EncodeRune_length_pos (r : Nat) : 1 ≤ (EncodeRune r).length := by
  unfold EncodeRune
  split_ifs <;> simp

theorem EncodeRune_length_two (r : Nat) (h : 0x80 ≤ r) : 2 ≤ (EncodeRune r).length := by
  unfold EncodeRune
  have : ¬ r ≤ 0x7F := by omega
  simp only [this, if_false]
  split_ifs <;> simp

theorem length_flatten_EncodeRune (l : List Nat) :
    l.length ≤ ((l.map EncodeRune).flatten).length ∧
      ((∃ r ∈ l, 0x80 ≤ r) → l.length < ((l.map EncodeRune).flatten).length) := by
  induction l with
  | nil => exact ⟨Nat.le_refl _, fun h => by obtain ⟨r, hr, _⟩ := h; cases hr⟩
  | cons a l ih =>
    simp only [List.map_cons, List.flatten_cons, List.length_append, List.length_cons]
    have h1 := EncodeRune_length_pos a
    refine ⟨by omega, ?_⟩
    rintro ⟨r, hr, hge⟩
    rcases List.mem_cons.mp hr with rfl | hr
    · have h2 := EncodeRune_length_two r hge
      omega
    · have := ih.2 ⟨r, hr, hge⟩
      omega

/-- A well-formed text that a page cannot represent has more bytes than
characters. -/
theorem chars_lt_bytes (cm : Charmap) (text : List Nat) (hv : ValidString text = true)
    (hr : ¬ cm.representable text) : (rangeString text).length < text.length := by
  have hex : ∃ r ∈ rangeString text, 0x80 ≤ r := by
    by_contra hno
    apply hr
    intro r hrm
    by_contra hm
    apply hno
    refine ⟨r, hrm, ?_⟩
    by_contra hlt
    exact hm (Or.inl (by omega))
  have h := (length_flatten_EncodeRune (rangeString text)).2 hex
  have hf := flatten_rangeFrom text 0 hv
  unfold rangeString at h ⊢
  rw [hf] at h
  simpa using h

theorem transcode_length (cm : Charmap) (text : List Nat) :
    (cm.transcode text).length = (rangeString text).length := by
  unfold Charmap.transcode
  rw [List.length_map]

/-! ## `WriteText` on a working display -/

theorem detectBestCharset_mem (e : CharsetEncoder) (text : List Nat) :
    e.detectBestCharset text ∈ [0, 2, 3, 19] := by
  rw [detectBestCharset_eq]
  split_ifs <;> decide

theorem set_encoder_self (d : Display) (e : CharsetEncoder) (hd : d.encoder = some e) :
    { d with encoder := some e } = d := by
  cases d
  simp only at hd
  subst hd
  rfl

theorem advanceCursorBy_port (d : Display) (n : Int) : (d.advanceCursorBy n).port = d.port := by
  unfold Display.advanceCursorBy
  by_cases hn : n ≤ 0
  · simp only [hn, if_true]
  · by_cases hz : d.columns ≤ 0 ∨ d.rows ≤ 0
    · simp only [hn, hz, if_false, if_true]
    · simp only [hn, hz, if_false]

theorem advanceCursorBy_encoder (d : Display) (n : Int) :
    (d.advanceCursorBy n).encoder = d.encoder := by
  unfold Display.advanceCursorBy
  by_cases hn : n ≤ 0
  · simp only [hn, if_true]
  · by_cases hz : d.columns ≤ 0 ∨ d.rows ≤ 0
    · simp only [hn, hz, if_false, if_true]
    · simp only [hn, hz, if_false]

/-- The cursor after `advanceCursorBy` depends on the size and the cursor of
the display only. -/
theorem advanceCursorBy_cursor (d x : Display) (n : Int) (h1 : x.columns = d.columns)
    (h2 : x.rows = d.rows) (h3 : x.cursorColumn = d.cursorColumn)
    (h4 : x.cursorRow = d.cursorRow) :
    (x.advanceCursorBy n).GetCursor = (d.advanceCursorBy n).GetCursor := by
  unfold Display.advanceCursorBy Display.GetCursor
  rw [h1, h2, h3, h4]
  by_cases hn : n ≤ 0
  · simp [hn, h3, h4]
  · by_cases hz : d.columns ≤ 0 ∨ d.rows ≤ 0
    · simp [hn, hz, h3, h4]
    · simp [hn, hz]

theorem displaySwitcher_working (d : Display) (p : Port) (pr : Protocol) (e e0 : CharsetEncoder)
    (page : Int) (hproto : d.protocol = some pr) (hd : d.encoder = some e0)
    (hport : d.port = some p) (hw : p.Working) (hp0 : 0 ≤ page) (hp1 : page ≤ 255) :
    displaySwitcher.SetCharacterCodeTableInternal page e d =
      (none, e.SetCharset page,
        { d with port := some (p.Write [0x1B, 0x74, page.toNat]).2 }) := by
  have hrange : ¬ (page < 0 ∨ page > 255) := by omega
  have hb : toByte page = page.toNat := by
    unfold toByte
    have : page % 256 = page := Int.emod_eq_of_lt hp0 (by omega)
    rw [this]
  simp only [displaySwitcher, Display.SetCharacterCodeTableInternal, hproto, hrange, if_false,
    Protocol.SetCharset, hd, Option.isSome_some, if_true, BuildSetCharsetSeq, CmdEscape,
    CmdEscCharsetTable, hb]
  rw [writeBytes_working d p _ hport hw]
  simp only [hproto, hd]

theorem WriteText_current (d : Display) (p : Port) (pr : Protocol) (e : CharsetEncoder)
    (text : List Nat) (hproto : d.protocol = some pr) (hd : d.encoder = some e)
    (hport : d.port = some p) (hw : p.Working) (hb : e.Bound) (hv : ValidString text = true)
    (hr : (pageTable e.currentCharset).representable text) :
    d.WriteText text =
      (none, Display.advanceCursorBy
        { d with port := some (p.Write ((pageTable e.currentCharset).transcode text)).2 }
        ((pageTable e.currentCharset).transcode text).length) := by
  unfold Display.WriteText Display.smartEncodeText
  rw [hproto, hd]
  simp only
  rw [sync_current hb text displaySwitcher d hv hr]
  simp only
  rw [set_encoder_self d e hd, writeBytes_working d p _ hport hw]
  simp only [hproto, hd]

theorem WriteText_fallback (d : Display) (p : Port) (pr : Protocol) (e : CharsetEncoder)
    (text : List Nat) (hproto : d.protocol = some pr) (hd : d.encoder = some e)
    (hport : d.port = some p) (hw : p.Working) (hb : e.Bound) (hv : ValidString text = true)
    (hr : ¬ (pageTable e.currentCharset).representable text)
    (hbest : e.detectBestCharset text = e.currentCharset ∨
      ¬ (pageTable (e.detectBestCharset text)).representable text) :
    d.WriteText text =
      (none, Display.advanceCursorBy { d with port := some (p.Write text).2 } text.length) := by
  unfold Display.WriteText Display.smartEncodeText
  rw [hproto, hd]
  simp only
  rw [sync_fallback hb text displaySwitcher d hv hr hbest]
  simp only
  rw [set_encoder_self d e hd, writeBytes_working d p _ hport hw]
  simp only [hproto, hd]

theorem WriteText_switch (d : Display) (p : Port) (pr : Protocol) (e : CharsetEncoder)
    (text : List Nat) (hproto : d.protocol = some pr) (hd : d.encoder = some e)
    (hport : d.port = some p) (hw : p.Working) (hb : e.Bound) (hv : ValidString text = true)
    (hr : ¬ (pageTable e.currentCharset).representable text)
    (hne : e.detectBestCharset text ≠ e.currentCharset)
    (hbest : (pageTable (e.detectBestCharset text)).representable text) :
    d.WriteText text =
      (none, Display.advanceCursorBy
        { d with
          port := some (((p.Write [0x1B, 0x74, (e.detectBestCharset text).toNat]).2).Write
            ((pageTable (e.detectBestCharset text)).transcode text)).2,
          encoder := some ⟨e.detectBestCharset text, some (pageTable (e.detectBestCharset text))⟩ }
        ((pageTable (e.detectBestCharset text)).transcode text).length) := by
  have hm := detectBestCharset_mem e text
  have hp0 : 0 ≤ e.detectBestCharset text := by
    simp only [List.mem_cons, List.mem_singleton, List.not_mem_nil, or_false] at hm
    omega
  have hp1 : e.detectBestCharset text ≤ 255 := by
    simp only [List.mem_cons, List.mem_singleton, List.not_mem_nil, or_false] at hm
    omega
  unfold Display.WriteText Display.smartEncodeText
  rw [hproto, hd]
  simp only
  rw [sync_switch hb text displaySwitcher d hv hr hne hbest,
    displaySwitcher_working d p pr _ e _ hproto hd hport hw hp0 hp1]
  simp only [SetCharset_eq]
  rw [writeBytes_working _ (p.Write [0x1B, 0x74, (e.detectBestCharset text).toNat]).2 _ rfl
    (Port.Write_working p _ hw).2.2]
  simp only [hproto, hd]

theorem wire_advanceCursorBy (d : Display) (n : Int) : (d.advanceCursorBy n).wire = d.wire := by
  unfold Display.wire
  rw [advanceCursorBy_port]

theorem wire_of_port (d : Display) (q : Port) (h : d.port = some q) :
    d.wire = q.frames.flatten := by
  unfold Display.wire
  rw [h]

/-- C28: every result of `EncodeText` and of
`EncodeTextWithAutoCharsetSwitching` on well-formed text is either the
transcoding under a page that represents the text, and then has as many bytes
as the text has characters, or the fallback, the text itself, and then has
strictly more bytes than the text has characters. On a display with a working
port `WriteText` advances the tracked cursor by the number of characters when
the text is transcoded, and by the number of bytes in the fallback. -/
theorem bytes_and_characters {D : Type} (e : CharsetEncoder) (text : List Nat)
    (display : CharsetSwitcher D) (dev : D) (d : Display) (p : Port) (pr : Protocol)
    (hb : e.Bound) (hv : ValidString text = true) (hproto : d.protocol = some pr)
    (hd : d.encoder = some e) (hport : d.port = some p) (hw : p.Working) :
    (((∃ cm : Charmap, cm.representable text ∧ (e.EncodeText text).1 = cm.transcode text) ∧
          (e.EncodeText text).1.length = (rangeString text).length) ∨
        ((e.EncodeText text).1 = text ∧ (rangeString text).length < text.length)) ∧
      (((∃ cm : Charmap, cm.representable text ∧
            (e.EncodeTextWithAutoCharsetSwitching text display dev).bytes = cm.transcode text) ∧
          (e.EncodeTextWithAutoCharsetSwitching text display dev).bytes.length
            = (rangeString text).length) ∨
        ((e.EncodeTextWithAutoCharsetSwitching text display dev).bytes = text ∧
          (rangeString text).length < text.length)) ∧
      (((pageTable e.currentCharset).representable text ∨
          (pageTable (e.detectBestCharset text)).representable text) →
        (d.WriteText text).1 = none ∧
          (d.WriteText text).2.GetCursor
            = (d.advanceCursorBy (rangeString text).length).GetCursor) ∧
      ((¬ (pageTable e.currentCharset).representable text ∧
          ¬ (pageTable (e.detectBestCharset text)).representable text) →
        (d.WriteText text).1 = none ∧
          (d.WriteText text).2.GetCursor = (d.advanceCursorBy text.length).GetCursor) := by
  refine ⟨?_, ?_, ?_, ?_⟩
  · by_cases hr : (pageTable e.currentCharset).representable text
    · rw [EncodeText_current hb text hv hr]
      exact Or.inl ⟨⟨_, hr, rfl⟩, transcode_length _ text⟩
    · by_cases hbest : (pageTable (e.detectBestCharset text)).representable text
      · have hne : e.detectBestCharset text ≠ e.currentCharset := by
          intro heq; rw [heq] at hbest; exact hr hbest
        rw [EncodeText_switch hb text hv hr hne hbest]
        exact Or.inl ⟨⟨_, hbest, rfl⟩, transcode_length _ text⟩
      · rw [EncodeText_fallback hb text hv hr hbest]
        exact Or.inr ⟨rfl, chars_lt_bytes _ text hv hr⟩
  · by_cases hr : (pageTable e.currentCharset).representable text
    · rw [sync_current hb text display dev hv hr]
      exact Or.inl ⟨⟨_, hr, rfl⟩, transcode_length _ text⟩
    · by_cases hbest : e.detectBestCharset text = e.currentCharset ∨
          ¬ (pageTable (e.detectBestCharset text)).representable text
      · rw [sync_fallback hb text display dev hv hr hbest]
        exact Or.inr ⟨rfl, chars_lt_bytes _ text hv hr⟩
      · have hne : e.detectBestCharset text ≠ e.currentCharset := fun h => hbest (Or.inl h)
        have hrep : (pageTable (e.detectBestCharset text)).representable text := by
          by_contra h; exact hbest (Or.inr h)
        rw [sync_switch hb text display dev hv hr hne hrep]
        rcases display.SetCharacterCodeTableInternal (e.detectBestCharset text)
            (e.SetCharset (e.detectBestCharset text)) dev with ⟨err, e2, d2⟩
        cases err with
        | none => exact Or.inl ⟨⟨_, hrep, rfl⟩, transcode_length _ text⟩
        | some msg => exact Or.inr ⟨rfl, chars_lt_bytes _ text hv hr⟩
  · intro h
    by_cases hr : (pageTable e.currentCharset).representable text
    · rw [WriteText_current d p pr e text hproto hd hport hw hb hv hr, transcode_length]
      exact ⟨rfl, advanceCursorBy_cursor d _ _ rfl rfl rfl rfl⟩
    · have hbest : (pageTable (e.detectBestCharset text)).representable text :=
        h.resolve_left hr
      have hne : e.detectBestCharset text ≠ e.currentCharset := by
        intro heq; rw [heq] at hbest; exact hr hbest
      rw [WriteText_switch d p pr e text hproto hd hport hw hb hv hr hne hbest,
        transcode_length]
      exact ⟨rfl, advanceCursorBy_cursor d _ _ rfl rfl rfl rfl⟩
  · rintro ⟨hr, hbest⟩
    rw [WriteText_fallback d p pr e text hproto hd hport hw hb hv hr (Or.inr hbest)]
    exact ⟨rfl, advanceCursorBy_cursor d _ _ rfl rfl rfl rfl⟩

theorem bytes_and_characters_witness :
    (NewCharsetEncoder.Bound ∧ ValidString textAcao = true ∧
      (openDisplay []).protocol = some Protocol.ESCPOS ∧
      (openDisplay []).encoder = some NewCharsetEncoder ∧
      (openDisplay []).port = some ⟨[], []⟩ ∧ (⟨[], []⟩ : Port).Working) ∧
      (NewCharsetEncoder.EncodeText textAcao).1.length = 4 ∧ textAcao.length = 6 ∧
      (NewCharsetEncoder.EncodeTextWithAutoCharsetSwitching textAcao failingSwitcher
        ()).bytes.length = 6 ∧
      ((openDisplay []).WriteText textAcao).2.GetCursor
        = ((openDisplay []).advanceCursorBy (rangeString textAcao).length).GetCursor ∧
      ((openDisplay []).WriteText textAcao).2.GetCursor = (5, 1) :=
  ⟨by decide, by decide, by decide, by decide,
    ((bytes_and_characters NewCharsetEncoder textAcao failingSwitcher () (openDisplay [])
      ⟨[], []⟩ Protocol.ESCPOS (by decide) (by decide) (by decide) (by decide) (by decide)
      (by decide)).2.2.1 (Or.inr (by decide))).2,
    by decide⟩

/-- C29: wire order of `WriteText` on a display with a protocol, an encoder
bound to its page and a working port, for well-formed text. If the text is
representable under the current page, the bytes delivered by the call are
exactly the transcoded text. If it is not, but is representable under the
classified page `p`, different from the current one, the bytes delivered are
exactly the switch command 1B 74 p followed by the text transcoded under `p`;
`p` is one of 0, 2, 3, 19, so the page-range error cannot occur. -/
theorem WriteText_wire_order (d : Display) (p : Port) (pr : Protocol) (e : CharsetEncoder)
    (text : List Nat) (hproto : d.protocol = some pr) (hd : d.encoder = some e)
    (hport : d.port = some p) (hw : p.Working) (hb : e.Bound)
    (hv : ValidString text = true) :
    ((pageTable e.currentCharset).representable text →
        (d.WriteText text).1 = none ∧
          (d.WriteText text).2.wire
            = d.wire ++ (pageTable e.currentCharset).transcode text) ∧
      (¬ (pageTable e.currentCharset).representable text →
        e.detectBestCharset text ≠ e.currentCharset →
        (pageTable (e.detectBestCharset text)).representable text →
        (d.WriteText text).1 = none ∧
          (d.WriteText text).2.wire
            = d.wire ++ [0x1B, 0x74, (e.detectBestCharset text).toNat]
              ++ (pageTable (e.detectBestCharset text)).transcode text ∧
          (d.WriteText text).2.encoder
            = some ⟨e.detectBestCharset text, some (pageTable (e.detectBestCharset text))⟩) ∧
      e.detectBestCharset text ∈ [0, 2, 3, 19] := by
  have hwire : d.wire = p.frames.flatten := wire_of_port d p hport
  refine ⟨?_, ?_, detectBestCharset_mem e text⟩
  · intro hr
    rw [WriteText_current d p pr e text hproto hd hport hw hb hv hr]
    refine ⟨rfl, ?_⟩
    rw [wire_advanceCursorBy, wire_of_port _ _ rfl, (Port.Write_working p _ hw).2.1, hwire]
    simp
  · intro hr hne hbest
    rw [WriteText_switch d p pr e text hproto hd hport hw hb hv hr hne hbest]
    refine ⟨rfl, ?_, ?_⟩
    · rw [wire_advanceCursorBy, wire_of_port _ _ rfl,
        (Port.Write_working _ _ (Port.Write_working p _ hw).2.2).2.1,
        (Port.Write_working p _ hw).2.1, hwire]
      simp
    · rw [advanceCursorBy_encoder]

theorem WriteText_wire_order_witness :
    ((openDisplay []).protocol = some Protocol.ESCPOS ∧
      (openDisplay []).encoder = some NewCharsetEncoder ∧
      (openDisplay []).port = some ⟨[], []⟩ ∧ (⟨[], []⟩ : Port).Working ∧
      NewCharsetEncoder.Bound ∧ ValidString textAcao = true) ∧
      ((openDisplay []).WriteText textAcao).2.wire
        = (openDisplay []).wire ++ [0x1B, 0x74, 3] ++ [0x61, 0x87, 0x84, 0x6F] ∧
      ((openDisplay []).WriteText textCafe).2.wire = [0x63, 0x61, 0x66, 0x82] :=
  ⟨by decide,
    ((WriteText_wire_order (openDisplay []) ⟨[], []⟩ Protocol.ESCPOS NewCharsetEncoder textAcao
      (by decide) (by decide) (by decide) (by decide) (by decide) (by decide)).2.1
      (by decide) (by decide) (by decide)).2.1.trans (by decide),
    ((WriteText_wire_order (openDisplay []) ⟨[], []⟩ Protocol.ESCPOS NewCharsetEncoder textCafe
      (by decide) (by decide) (by decide) (by decide) (by decide) (by decide)).1
      (by decide)).2.trans (by decide)⟩

end GoVFD
